import Mathlib

/-!
Verification development for the indicator and signal-scoring engine of the
Crypto dashboard repository.  The Python sources `utils/indicators.py` and
`models/signal_generator.py` are shallowly embedded here: pandas Series become
`List ℚ` (for candle columns, which are plain numbers) or `List (Option ℚ)`
(for derived indicator columns, where `none` models a NaN entry produced by an
insufficient look-back window).  Pandas comparison semantics are kept: any
comparison against NaN is false.  Python float arithmetic is idealised as exact
rational arithmetic, and `round(x, n)` is modelled as rounding to the nearest
multiple of `10^-n`.  The DataFrame index produced by the data layer is
modelled as a list of epoch-second timestamps (the value `df.index[i]` on
which `detect_support_resistance` calls `.timestamp()`).
-/

namespace Crypto

/-- A cell of a derived indicator column: `none` models a pandas NaN. -/
abbrev Cell := Option ℚ

/-- An indicator column aligned with the candle series. -/
abbrev Col := List Cell

/-- Pandas semantics of `a < b` on floats: false when either side is NaN. -/
def oLT (a b : Cell) : Bool :=
  match a, b with
  | some x, some y => decide (x < y)
  | _, _ => false

/-- Pandas semantics of `a <= b` on floats: false when either side is NaN. -/
def oLE (a b : Cell) : Bool :=
  match a, b with
  | some x, some y => decide (x ≤ y)
  | _, _ => false

/-- Value of an indicator column at row `i` (`none` when out of range or NaN). -/
def cellAt (cl : Col) (i : Nat) : Cell := (cl[i]?).join

/-- Value of `col.shift(1)` at row `i`: the previous cell, NaN at row 0. -/
def prevCell (c : Col) (i : Nat) : Cell := if i = 0 then none else cellAt c (i - 1)

/-- Value of a plain (non-NaN) candle column at row `i`; rows are only read
in range, the default 0 is never observable through the embedded functions. -/
def vAt (l : List ℚ) (i : Nat) : ℚ := l.getD i 0

/-- Value of `series.shift(1)` for a plain candle column. -/
def prevV (l : List ℚ) (i : Nat) : Cell :=
  if i = 0 then none else l[i - 1]?

/-- Trailing rolling mean with window `w` (pandas `rolling(window=w).mean()`
with the default `min_periods`): defined from row `w-1` on.  A window of 0 is
rejected by pandas, modelled as an all-NaN column. -/
def rollingMean (l : List ℚ) (w : Nat) : Col :=
  (List.range l.length).map fun i =>
    if 1 ≤ w ∧ w ≤ i + 1 then some (((l.drop (i + 1 - w)).take w).sum / w) else none

/-- Recursive exponential smoothing `y_i = α x_i + (1-α) y_{i-1}` used by
`Series.ewm(span, adjust=False).mean()`, seeded with the first value. -/
def ewmFrom (a : ℚ) (acc : ℚ) : List ℚ → List ℚ
  | [] => []
  | x :: xs => let y := a * x + (1 - a) * acc; y :: ewmFrom a y xs

/-- `TechnicalIndicators.EMA`: `series.ewm(span=timeperiod, adjust=False).mean()`. -/
def EMA (l : List ℚ) (tp : Nat) : List ℚ :=
  match l with
  | [] => []
  | x :: xs => x :: ewmFrom (2 / ((tp : ℚ) + 1)) x xs

/-- Per-row gains used by `TechnicalIndicators.RSI`: `delta.where(delta > 0, 0)`
where `delta = series.diff()`.  The NaN delta of row 0 fails the comparison,
so row 0 holds 0. -/
def gains (l : List ℚ) : List ℚ :=
  (List.range l.length).map fun i =>
    match i with
    | 0 => 0
    | j + 1 => let d := vAt l (j + 1) - vAt l j; if 0 < d then d else 0

/-- Per-row losses used by `TechnicalIndicators.RSI`: `-delta.where(delta < 0, 0)`. -/
def losses (l : List ℚ) : List ℚ :=
  (List.range l.length).map fun i =>
    match i with
    | 0 => 0
    | j + 1 => let d := vAt l (j + 1) - vAt l j; if d < 0 then -d else 0

/-- Wilder smoothing of `TechnicalIndicators.RSI`: the rolling-mean seed at row
`tp-1`, then in-place `avg_i = (avg_{i-1} * (tp-1) + value_i) / tp` for rows
`tp, tp+1, ...` exactly as the Python loop rewrites the rolling column. -/
def wilderAvg (g : List ℚ) (tp : Nat) : Nat → Cell
  | 0 => if tp = 1 then cellAt (rollingMean g 1) 0 else none
  | i + 1 =>
    if i + 2 < tp then none
    else if i + 2 = tp then cellAt (rollingMean g tp) (i + 1)
    else
      match wilderAvg g tp i with
      | some a => some ((a * ((tp : ℚ) - 1) + vAt g (i + 1)) / tp)
      | none => none

/-- Average-gain column of `TechnicalIndicators.RSI` after the Python loop. -/
def avgGainL (l : List ℚ) (tp : Nat) : Col :=
  (List.range l.length).map (wilderAvg (gains l) tp)

/-- Average-loss column of `TechnicalIndicators.RSI` after the Python loop. -/
def avgLossL (l : List ℚ) (tp : Nat) : Col :=
  (List.range l.length).map (wilderAvg (losses l) tp)

/-- `TechnicalIndicators.RSI`: `100 - 100/(1 + avg_gain/avg_loss)` under float
semantics.  With `avg_gain ≥ 0`: when `avg_loss = 0` and `avg_gain > 0` the
quotient is +inf and the formula collapses to 100; when both are 0 the
quotient is NaN (0/0) and the result is NaN, modelled as `none`. -/
def RSIl (l : List ℚ) (tp : Nat) : Col :=
  (List.range l.length).map fun i =>
    match wilderAvg (gains l) tp i, wilderAvg (losses l) tp i with
    | some g, some lo =>
      if lo = 0 then (if g = 0 then none else some 100)
      else some (100 - 100 / (1 + g / lo))
    | _, _ => none

/-- True-range series of `TechnicalIndicators.ATR`: the `np.zeros` seed leaves
row 0 at 0, each later row is the max of the three true-range candidates. -/
def trL (high low close : List ℚ) : List ℚ :=
  (List.range high.length).map fun i =>
    match i with
    | 0 => 0
    | j + 1 =>
      max (vAt high (j + 1) - vAt low (j + 1))
        (max |vAt high (j + 1) - vAt close j| |vAt low (j + 1) - vAt close j|)

/-- `TechnicalIndicators.ATR`: simple rolling mean of the true range. -/
def ATRl (high low close : List ℚ) (tp : Nat) : Col :=
  rollingMean (trL high low close) tp

/-- Candle table handed to the engine.  The base OHLCV columns are plain
numbers by the data-layer contract; indicator columns are optional (the
Python code tests `'col' in df.columns`) and may contain NaN cells. -/
structure DataFrame where
  index : List ℚ
  timestamp : List ℚ
  openP : List ℚ := []
  high : List ℚ := []
  low : List ℚ := []
  close : List ℚ := []
  volume : List ℚ := []
  ema9 : Option Col := none
  ema21 : Option Col := none
  ema50 : Option Col := none
  ema200 : Option Col := none
  bb_upper : Option Col := none
  bb_middle : Option Col := none
  bb_lower : Option Col := none
  rsi : Option Col := none
  macd : Option Col := none
  macd_signal : Option Col := none
  macd_hist : Option Col := none
  atrC : Option Col := none
  adxC : Option Col := none
  vwapC : Option Col := none

/-- Number of rows, `len(df)`. -/
def dfLen (df : DataFrame) : Nat := df.index.length

/-- Minimum of a nonempty list given head and tail, `min(list)` in Python. -/
def minL (x : ℚ) (xs : List ℚ) : ℚ := xs.foldl min x

/-- Maximum of a nonempty list given head and tail, `max(list)` in Python. -/
def maxL (x : ℚ) (xs : List ℚ) : ℚ := xs.foldl max x

/-- Minimum of the `w`-long slice starting at `a`, NaN when empty. -/
def sliceMin (l : List ℚ) (a w : Nat) : Cell :=
  match (l.drop a).take w with
  | [] => none
  | x :: xs => some (minL x xs)

/-- Maximum of the `w`-long slice starting at `a`, NaN when empty. -/
def sliceMax (l : List ℚ) (a w : Nat) : Cell :=
  match (l.drop a).take w with
  | [] => none
  | x :: xs => some (maxL x xs)

/-- Centered rolling minimum, `series.rolling(window=w, center=True).min()`:
row `i` covers rows `i - (w-1)/2 .. i + w/2` (Nat division) and is NaN unless
the whole window is in range (`min_periods` defaults to the window size). -/
def centeredMin (l : List ℚ) (w : Nat) : Col :=
  (List.range l.length).map fun i =>
    if 1 ≤ w ∧ (w - 1) / 2 ≤ i ∧ i + w / 2 < l.length then
      sliceMin l (i - (w - 1) / 2) w
    else none

/-- Centered rolling maximum, `series.rolling(window=w, center=True).max()`. -/
def centeredMax (l : List ℚ) (w : Nat) : Col :=
  (List.range l.length).map fun i =>
    if 1 ≤ w ∧ (w - 1) / 2 ≤ i ∧ i + w / 2 < l.length then
      sliceMax l (i - (w - 1) / 2) w
    else none

/-- Row indices collected as supports by `detect_support_resistance`: `i` runs
over `range(window, len(df)-window)` and qualifies when the low equals the
centered rolling minimum and is strictly below both neighbouring lows. -/
def supportIdxs (low : List ℚ) (w : Nat) : List Nat :=
  (List.range low.length).filter fun i =>
    decide (w ≤ i) && decide (i + w < low.length) &&
    decide (cellAt (centeredMin low w) i = some (vAt low i)) &&
    decide (vAt low i < vAt low (i - 1)) && decide (vAt low i < vAt low (i + 1))

/-- Row indices collected as resistances by `detect_support_resistance`. -/
def resistIdxs (high : List ℚ) (w : Nat) : List Nat :=
  (List.range high.length).filter fun i =>
    decide (w ≤ i) && decide (i + w < high.length) &&
    decide (cellAt (centeredMax high w) i = some (vAt high i)) &&
    decide (vAt high (i - 1) < vAt high i) && decide (vAt high (i + 1) < vAt high i)

/-- An extremum as collected by the Python loops: `(df.index[i], price)`. -/
abbrev LPoint := ℚ × ℚ

/-- Support extrema `(index, low)` appended by the first detection loop. -/
def supportPoints (df : DataFrame) (w : Nat) : List LPoint :=
  (supportIdxs df.low w).map fun i => (vAt df.index i, vAt df.low i)

/-- Resistance extrema `(index, high)` appended by the second detection loop. -/
def resistPoints (df : DataFrame) (w : Nat) : List LPoint :=
  (resistIdxs df.high w).map fun i => (vAt df.index i, vAt df.high i)

/-- Closeness test of `cluster_levels`: the candidate is within 0.5% of the
last member of the running cluster. -/
def closeTo (p x : LPoint) : Bool := decide (|x.2 - p.2| / p.2 < 5 / 1000)

/-- Greedy pass of `cluster_levels` over the price-sorted extrema.  `p` is the
last member of the running cluster, `acc` the earlier members (reversed).
Python divides by `p`'s price, so a zero price raises `ZeroDivisionError`,
caught by the inner handler: modelled as `none`. -/
def clusterGo : List LPoint → LPoint → List LPoint → Option (List (List LPoint))
  | [], p, acc => some [(p :: acc).reverse]
  | x :: xs, p, acc =>
    if p.2 = 0 then none
    else if closeTo p x then clusterGo xs x (p :: acc)
    else
      match clusterGo xs x [] with
      | some gs => some ((p :: acc).reverse :: gs)
      | none => none

/-- Partition of the sorted extrema into the clusters built by `cluster_levels`
(before each cluster is averaged); `none` models the caught exception. -/
def clusterGroups : List LPoint → Option (List (List LPoint))
  | [] => some []
  | x :: xs => clusterGo xs x []

/-- Replacement of a cluster by its mean timestamp and mean price. -/
def meanPoint (g : List LPoint) : LPoint :=
  ((g.map Prod.fst).sum / g.length, (g.map Prod.snd).sum / g.length)

/-- Ascending-by-price order used by `levels.sort(key=lambda x: x[1])`. -/
def priceLE (a b : LPoint) : Prop := a.2 ≤ b.2

instance : DecidableRel priceLE := fun a b => inferInstanceAs (Decidable (a.2 ≤ b.2))

instance : IsTotal LPoint priceLE := ⟨fun a b => le_total a.2 b.2⟩

instance : IsTrans LPoint priceLE := ⟨fun _ _ _ h h2 => le_trans h h2⟩

/-- Stable ascending price sort (Python `list.sort` with a price key). -/
def sortByPrice (l : List LPoint) : List LPoint := l.insertionSort priceLE

/-- `cluster_levels`: sort by price, group greedily within 0.5% of the running
cluster's last price, replace each group by its member mean; the inner
exception handler turns any raised error into an empty list. -/
def cluster_levels (levels : List LPoint) : List LPoint :=
  match clusterGroups (sortByPrice levels) with
  | some gs => gs.map meanPoint
  | none => []

/-- Descending-by-timestamp order used by `sorted(..., reverse=True)`. -/
def timeGE (a b : LPoint) : Prop := b.1 ≤ a.1

instance : DecidableRel timeGE := fun a b => inferInstanceAs (Decidable (b.1 ≤ a.1))

/-- Most recent three cluster prices: sort clusters by mean timestamp
descending, keep at most 3, project the price. -/
def recent3 (l : List LPoint) : List ℚ :=
  ((l.insertionSort timeGE).take 3).map Prod.snd

/-- Result dictionary of `detect_support_resistance` when it is non-empty. -/
structure SRLevels where
  support : List ℚ
  resistance : List ℚ
deriving DecidableEq

/-- `detect_support_resistance`: `none` models the empty dictionary returned
for fewer than `2*window` rows (a zero window makes pandas raise, absorbed by
the outer handler into the same empty dictionary). -/
def detect_support_resistance (df : DataFrame) (w : Nat) : Option SRLevels :=
  if dfLen df = 0 ∨ dfLen df < w * 2 ∨ w = 0 then none
  else
    some
      { support := recent3 (cluster_levels (supportPoints df w)),
        resistance := recent3 (cluster_levels (resistPoints df w)) }

/-- One row of the `signals` DataFrame built by `generate_signals`. -/
structure SignalRow where
  timestamp : ℚ
  price : ℚ
  signal : Int
  confidence : ℚ
  reason : String
deriving DecidableEq

/-- One `signals.loc[mask, col] = value` statement: rows matching the mask
(re-evaluated against the current frame) get the column updated. -/
def locSet (mask : Nat → SignalRow → Bool) (upd : Nat → SignalRow → SignalRow)
    (rows : List SignalRow) : List SignalRow :=
  rows.mapIdx fun i r => if mask i r then upd i r else r

/-- Column update writing the `signal` field. -/
def setSig (v : Int) : Nat → SignalRow → SignalRow := fun _ r => { r with signal := v }

/-- Column update writing the `confidence` field. -/
def setConf (v : Nat → ℚ) : Nat → SignalRow → SignalRow := fun i r => { r with confidence := v i }

/-- Column update writing the `reason` field. -/
def setReason (v : String) : Nat → SignalRow → SignalRow := fun _ r => { r with reason := v }

/-- EMA crossover block of `generate_signals` (runs only when both `ema9` and
`ema21` columns exist); the optional 0.1 bonus reads `ema50`.  Each `.loc`
statement is applied in source order.  CAVEAT: when `ema50` exists,
`buy_confidence`/`sell_confidence` are full-length numpy arrays and the two
pandas confidence assignments raise
`ValueError: Must have equal len keys and value when setting with an iterable`
as soon as their boolean mask selects at least one row (row 0 can never
cross, so a nonempty mask never selects the whole frame); that raising
condition is modelled separately as `emaValueError`.  On every frame where
`emaValueError` is false this per-row model is exact: without `ema50` the
confidences are scalars, and with `ema50` both masks are empty so the array
assignments are silent no-ops. -/
def emaFamily (df : DataFrame) (rows : List SignalRow) : List SignalRow :=
  match df.ema9, df.ema21 with
  | some e9, some e21 =>
    let up := fun (i : Nat) (_ : SignalRow) =>
      oLE (prevCell e9 i) (prevCell e21 i) && oLT (cellAt e21 i) (cellAt e9 i)
    let down := fun (i : Nat) (_ : SignalRow) =>
      oLE (prevCell e21 i) (prevCell e9 i) && oLT (cellAt e9 i) (cellAt e21 i)
    let buyConf := fun (i : Nat) =>
      (0.6 : ℚ) +
        match df.ema50 with
        | some e50 => if oLT (cellAt e50 i) (some (vAt df.close i)) then 0.1 else 0
        | none => 0
    let sellConf := fun (i : Nat) =>
      (0.6 : ℚ) +
        match df.ema50 with
        | some e50 => if oLT (some (vAt df.close i)) (cellAt e50 i) then 0.1 else 0
        | none => 0
    let r1 := locSet up (setSig 1) rows
    let r2 := locSet up (setConf buyConf) r1
    let r3 := locSet up (setReason "EMA9 crossed above EMA21") r2
    let r4 := locSet down (setSig (-1)) r3
    let r5 := locSet down (setConf sellConf) r4
    locSet down (setReason "EMA9 crossed below EMA21") r5
  | _, _ => rows

/-- Condition under which the real `generate_signals` raises instead of
returning: the `ema9`, `ema21` and `ema50` columns are all present and at
least one bar carries an EMA crossover (in either direction), so one of the
two array-valued confidence assignments executes with a nonempty mask and
pandas raises `ValueError`.  The exception propagates out of
`generate_signals` and out of `predict_price_levels`, which has no handler. -/
def emaValueError (df : DataFrame) : Bool :=
  match df.ema9, df.ema21, df.ema50 with
  | some e9, some e21, some _ =>
    (List.range (dfLen df)).any fun i =>
      (oLE (prevCell e9 i) (prevCell e21 i) && oLT (cellAt e21 i) (cellAt e9 i)) ||
      (oLE (prevCell e21 i) (prevCell e9 i) && oLT (cellAt e9 i) (cellAt e21 i))
  | _, _, _ => false

/-- RSI block of `generate_signals`: each of the six `.loc` statements guards
on the current confidence being below 0.65, so after the confidence write the
mask of the reason write is empty and the reason keeps its old value. -/
def rsiFamily (df : DataFrame) (rows : List SignalRow) : List SignalRow :=
  match df.rsi with
  | some rc =>
    let mBuy := fun (i : Nat) (r : SignalRow) =>
      (oLE (prevCell rc i) (some 30) && oLT (some 30) (cellAt rc i)) &&
        decide (r.confidence < 0.65)
    let mSell := fun (i : Nat) (r : SignalRow) =>
      (oLE (some 70) (prevCell rc i) && oLT (cellAt rc i) (some 70)) &&
        decide (r.confidence < 0.65)
    let r1 := locSet mBuy (setSig 1) rows
    let r2 := locSet mBuy (setConf fun _ => 0.65) r1
    let r3 := locSet mBuy (setReason "RSI crossed above 30 (oversold)") r2
    let r4 := locSet mSell (setSig (-1)) r3
    let r5 := locSet mSell (setConf fun _ => 0.65) r4
    locSet mSell (setReason "RSI crossed below 70 (overbought)") r5
  | none => rows

/-- MACD block of `generate_signals`, base confidence 0.7, same statement
pattern as the RSI block. -/
def macdFamily (df : DataFrame) (rows : List SignalRow) : List SignalRow :=
  match df.macd, df.macd_signal with
  | some mc, some sc =>
    let mUp := fun (i : Nat) (r : SignalRow) =>
      (oLE (prevCell mc i) (prevCell sc i) && oLT (cellAt sc i) (cellAt mc i)) &&
        decide (r.confidence < 0.7)
    let mDown := fun (i : Nat) (r : SignalRow) =>
      (oLE (prevCell sc i) (prevCell mc i) && oLT (cellAt mc i) (cellAt sc i)) &&
        decide (r.confidence < 0.7)
    let r1 := locSet mUp (setSig 1) rows
    let r2 := locSet mUp (setConf fun _ => 0.7) r1
    let r3 := locSet mUp (setReason "MACD crossed above signal line") r2
    let r4 := locSet mDown (setSig (-1)) r3
    let r5 := locSet mDown (setConf fun _ => 0.7) r4
    locSet mDown (setReason "MACD crossed below signal line") r5
  | _, _ => rows

/-- Bollinger block of `generate_signals`, base confidence 0.75; requires all
three band columns to exist. -/
def bbFamily (df : DataFrame) (rows : List SignalRow) : List SignalRow :=
  match df.bb_upper, df.bb_lower, df.bb_middle with
  | some up, some lo, some _ =>
    let mBuy := fun (i : Nat) (r : SignalRow) =>
      (oLE (prevV df.close i) (prevCell lo i) &&
        oLT (cellAt lo i) (some (vAt df.close i))) && decide (r.confidence < 0.75)
    let mSell := fun (i : Nat) (r : SignalRow) =>
      (oLE (prevCell up i) (prevV df.close i) &&
        oLT (some (vAt df.close i)) (cellAt up i)) && decide (r.confidence < 0.75)
    let r1 := locSet mBuy (setSig 1) rows
    let r2 := locSet mBuy (setConf fun _ => 0.75) r1
    let r3 := locSet mBuy (setReason "Price bounced from lower Bollinger Band") r2
    let r4 := locSet mSell (setSig (-1)) r3
    let r5 := locSet mSell (setConf fun _ => 0.75) r4
    locSet mSell (setReason "Price rejected from upper Bollinger Band") r5
  | _, _, _ => rows

/-- The `signals` frame right after the four rule families, before the
threshold statements: one row per candle, initialised to the neutral
`(signal 0, confidence 0, empty reason)` with timestamp and close copied. -/
def signalsRaw (df : DataFrame) : List SignalRow :=
  let init := (List.range (dfLen df)).map fun i =>
    { timestamp := vAt df.timestamp i, price := vAt df.close i,
      signal := 0, confidence := 0, reason := "" : SignalRow }
  bbFamily df (macdFamily df (rsiFamily df (emaFamily df init)))

/-- The two threshold statements: rows below the confidence threshold get
`signal = 0` and an empty reason (the confidence column is left untouched). -/
def signalsThresholded (df : DataFrame) (thr : ℚ) : List SignalRow :=
  let r1 := locSet (fun _ r => decide (r.confidence < thr)) (setSig 0) (signalsRaw df)
  locSet (fun _ r => decide (r.confidence < thr)) (setReason "") r1

/-- `SignalGenerator.generate_signals`: the thresholded frame restricted to
its last 10 rows and filtered to confidence at or above the threshold. -/
def generate_signals (df : DataFrame) (thr : ℚ) : List SignalRow :=
  if dfLen df = 0 then []
  else
    let s := signalsThresholded df thr
    (s.drop (s.length - 10)).filter fun r => decide (thr ≤ r.confidence)

/-- Python `round(q, d)`: rounding to the nearest multiple of `10^-d` (exact
half-way cases, which Python settles by the binary banker's rule, are not
exercised by any statement below). -/
def roundTo (d : Nat) (q : ℚ) : ℚ := ((round (q * 10 ^ d) : ℤ) : ℚ) / 10 ^ d

/-- Python truthiness of a float-or-None variable: None and 0.0 are falsy. -/
def truthy : Option ℚ → Bool
  | none => false
  | some v => decide (v ≠ 0)

/-- The result dictionary of `predict_price_levels`.  The early return for
short input carries only the three price keys; an absent key is `none` (so
`risk_reward`/`confidence` are `none` exactly when the key is missing). -/
structure TradingSetup where
  entry : Option ℚ
  exit : Option ℚ
  stop_loss : Option ℚ
  risk_reward : Option ℚ
  confidence : Option ℚ
deriving DecidableEq

/-- First minimiser of `|x - c|`, Python `min(lst, key=lambda x: abs(x-c))`
(ties keep the earliest element). -/
def argminAbs (l : List ℚ) (c : ℚ) : Option ℚ :=
  l.foldl
    (fun acc x =>
      match acc with
      | none => some x
      | some a => if |x - c| < |a - c| then some x else acc)
    none

/-- Long branch of `predict_price_levels` (a recent buy signal exists):
exit at the closest resistance above entry else 2% above, stop at the closest
support below entry else `entry - 2*atr`. -/
def buySetup (e atr : ℚ) (levels : Option SRLevels) : Option ℚ × Option ℚ × Option ℚ :=
  let x :=
    match levels with
    | some L =>
      if L.resistance.isEmpty then e * 1.02
      else
        match L.resistance.filter fun r => decide (e < r) with
        | [] => e * 1.02
        | y :: ys => minL y ys
    | none => e * 1.02
  let s :=
    match levels with
    | some L =>
      if L.support.isEmpty then e - 2 * atr
      else
        match L.support.filter fun r => decide (r < e) with
        | [] => e - 2 * atr
        | y :: ys => maxL y ys
    | none => e - 2 * atr
  (some e, some x, some s)

/-- Short branch of `predict_price_levels` (a recent sell signal exists). -/
def sellSetup (e atr : ℚ) (levels : Option SRLevels) : Option ℚ × Option ℚ × Option ℚ :=
  let x :=
    match levels with
    | some L =>
      if L.support.isEmpty then e * 0.98
      else
        match L.support.filter fun r => decide (r < e) with
        | [] => e * 0.98
        | y :: ys => maxL y ys
    | none => e * 0.98
  let s :=
    match levels with
    | some L =>
      if L.resistance.isEmpty then e + 2 * atr
      else
        match L.resistance.filter fun r => decide (e < r) with
        | [] => e + 2 * atr
        | y :: ys => minL y ys
    | none => e + 2 * atr
  (some e, some x, some s)

/-- No-signal branch of `predict_price_levels`.  The support-proximity check
runs whenever support levels exist; the resistance check sits in an `elif`
and therefore only runs when no support level exists at all.  If neither
armed a stop, the trend-continuation default uses the last two closes. -/
def fallbackSetup (df : DataFrame) (cp atr : ℚ) (levels : Option SRLevels) :
    Option ℚ × Option ℚ × Option ℚ :=
  let first : ℚ × Option ℚ × Option ℚ :=
    match levels with
    | some L =>
      if L.support.isEmpty then
        if L.resistance.isEmpty then (cp, none, none)
        else
          match argminAbs L.resistance cp with
          | some nr =>
            if |nr - cp| / cp < 0.01 then (nr, some (nr - 3 * atr), some (nr + 2 * atr))
            else (cp, none, none)
          | none => (cp, none, none)
      else
        match argminAbs L.support cp with
        | some ns =>
          if |ns - cp| / cp < 0.01 then (ns, some (ns + 3 * atr), some (ns - 2 * atr))
          else (cp, none, none)
        | none => (cp, none, none)
    | none => (cp, none, none)
  match first.2.2 with
  | some _ => (some first.1, first.2.1, first.2.2)
  | none =>
    if vAt df.close (df.close.length - 2) < vAt df.close (df.close.length - 1) then
      (some cp, some (cp + 2 * atr), some (cp - 2 * atr))
    else
      (some cp, some (cp - 2 * atr), some (cp + 2 * atr))

/-- Last cell of an indicator column, `col.iloc[-1]` (NaN stays NaN). -/
def lastCell (c : Col) : Cell :=
  match c.getLast? with
  | some v => v
  | none => none

/-- `SignalGenerator._calculate_setup_confidence`, statement for statement:
base 0.5, the four aligned/opposed adjustments, the risk-reward bonus, clamp
to `[0,1]` and round to 2 decimals.  NaN cells fail every comparison, which
in the MACD block falls into the bare `else` penalty exactly as in Python. -/
def calc_setup_confidence (df : DataFrame) (entry exit stop_loss : Option ℚ) : ℚ :=
  if dfLen df = 0 then 0
  else
    match entry, exit, stop_loss with
    | some e, some x, some s =>
      let c0 : ℚ := 0.5
      let c1 := c0 +
        (match df.ema9, df.ema21 with
        | some e9, some e21 =>
          let upt := oLT (lastCell e21) (lastCell e9)
          let dnt := oLT (lastCell e9) (lastCell e21)
          if decide (e < x) && upt then (0.1 : ℚ)
          else if decide (x < e) && dnt then 0.1
          else 0
        | _, _ => 0)
      let c2 := c1 +
        (match df.rsi with
        | some rc =>
          let r := lastCell rc
          if decide (e < x) then
            if oLT r (some 30) then (0.1 : ℚ) else if oLT (some 70) r then -0.1 else 0
          else
            if oLT (some 70) r then (0.1 : ℚ) else if oLT r (some 30) then -0.1 else 0
        | none => 0)
      let c3 := c2 +
        (match df.macd, df.macd_signal with
        | some mc, some sc =>
          let m := lastCell mc
          let sg := lastCell sc
          if decide (e < x) then (if oLT sg m then (0.1 : ℚ) else -0.1)
          else (if oLT m sg then (0.1 : ℚ) else -0.1)
        | _, _ => 0)
      let c4 := c3 +
        (match df.bb_upper, df.bb_lower, df.bb_middle with
        | some up, some lo, some _ =>
          let p := vAt df.close (df.close.length - 1)
          if decide (e < x) then
            if oLE (some p) ((lastCell lo).map fun v => v * 1.01) then (0.1 : ℚ)
            else if oLE ((lastCell up).map fun v => v * 0.99) (some p) then -0.1
            else 0
          else
            if oLE ((lastCell up).map fun v => v * 0.99) (some p) then (0.1 : ℚ)
            else if oLE (some p) ((lastCell lo).map fun v => v * 1.01) then -0.1
            else 0
        | _, _, _ => 0)
      let c5 := c4 +
        (let risk := |e - s|
        if 0 < risk then
          let rr := |e - x| / risk
          if 2 ≤ rr then (0.1 : ℚ) else if 1.5 ≤ rr then 0.05 else if rr < 1 then -0.1 else 0
        else 0)
      roundTo 2 (max 0 (min 1 c5))
    | _, _, _ => 0

/-- Current price read by `predict_price_levels`, `df['close'].iloc[-1]`. -/
def cpOf (df : DataFrame) : ℚ := vAt df.close (df.close.length - 1)

/-- Last ATR(14) value read by `predict_price_levels`; always defined when
at least 15 rows exist, which the 20-row guard guarantees. -/
def atrOf (df : DataFrame) : ℚ :=
  (cellAt (ATRl df.high df.low df.close 14) (df.high.length - 1)).getD 0

/-- Recent buy signals, `signals[signals['signal'] == 1]` at the default
threshold 0.6 used by `predict_price_levels`. -/
def buysOf (df : DataFrame) : List SignalRow :=
  (generate_signals df 0.6).filter fun r => decide (r.signal = 1)

/-- Recent sell signals, `signals[signals['signal'] == -1]`. -/
def sellsOf (df : DataFrame) : List SignalRow :=
  (generate_signals df 0.6).filter fun r => decide (r.signal = -1)

/-- Entry, exit and stop of `predict_price_levels` before rounding: the
branch on the most recent buy signal, else the most recent sell signal, else
the no-signal fallback (levels from `detect_support_resistance` at the
default window 5). -/
def levelsTriple (df : DataFrame) : Option ℚ × Option ℚ × Option ℚ :=
  match (buysOf df).getLast? with
  | some rb => buySetup rb.price (atrOf df) (detect_support_resistance df 5)
  | none =>
    match (sellsOf df).getLast? with
    | some rs => sellSetup rs.price (atrOf df) (detect_support_resistance df 5)
    | none => fallbackSetup df (cpOf df) (atrOf df) (detect_support_resistance df 5)

/-- Final dictionary assembly of `predict_price_levels`: rounding to 8
decimals, Python truthiness (`if entry_level`) turning a level equal to
exactly 0 into `None` and zeroing the risk-reward ratio, the risk-reward
ratio rounded to 2 decimals, and the confidence of the unrounded levels. -/
def assembleSetup (df : DataFrame) (t : Option ℚ × Option ℚ × Option ℚ) : TradingSetup :=
  let e := t.1
  let x := t.2.1
  let s := t.2.2
  let rr :=
    if truthy e && truthy x && truthy s then
      let risk := |e.getD 0 - s.getD 0|
      if 0 < risk then |e.getD 0 - x.getD 0| / risk else 0
    else 0
  { entry := if truthy e then some (roundTo 8 (e.getD 0)) else none,
    exit := if truthy x then some (roundTo 8 (x.getD 0)) else none,
    stop_loss := if truthy s then some (roundTo 8 (s.getD 0)) else none,
    risk_reward := some (roundTo 2 rr),
    confidence := some (calc_setup_confidence df e x s) }

/-- `SignalGenerator.predict_price_levels`.  Fewer than 20 rows returns the
partial dictionary holding only the three `None` price keys (the
`risk_reward` and `confidence` keys are absent, modelled as `none`). -/
def predict_price_levels (df : DataFrame) : TradingSetup :=
  if dfLen df < 20 then
    { entry := none, exit := none, stop_loss := none, risk_reward := none, confidence := none }
  else assembleSetup df (levelsTriple df)

/-- Cellwise combination of two indicator columns (NaN-propagating). -/
def czip (f : ℚ → ℚ → ℚ) (a b : Col) : Col :=
  List.zipWith
    (fun x y =>
      match x, y with
      | some u, some v => some (f u v)
      | _, _ => none)
    a b

/-- `TechnicalIndicators.MACD`: fast EMA minus slow EMA, its EMA as the
signal line, and their difference as the histogram. -/
def MACDl (l : List ℚ) (fast slow sig : Nat) : List ℚ × List ℚ × List ℚ :=
  let fl := EMA l fast
  let sl := EMA l slow
  let m := List.zipWith (fun a b => a - b) fl sl
  let sgl := EMA m sig
  (m, sgl, List.zipWith (fun a b => a - b) m sgl)

/-- `TechnicalIndicators.calculate_vwap`: cumulative typical-price volume over
cumulative volume.  A zero cumulative volume divides by zero in floats
(NaN or infinity); modelled as `none`. -/
def vwapL (df : DataFrame) : Col :=
  (List.range df.close.length).map fun i =>
    let tpv := ((List.range (i + 1)).map fun j =>
      (vAt df.high j + vAt df.low j + vAt df.close j) / 3 * vAt df.volume j).sum
    let cv := ((List.range (i + 1)).map fun j => vAt df.volume j).sum
    if cv = 0 then none else some (tpv / cv)

/-- Indicator-selection dictionary passed to `add_indicators` (the `Volume`
key has no computation attached in the source). -/
structure IndicatorOpts where
  ema9 : Bool
  ema21 : Bool
  ema50 : Bool
  ema200 : Bool
  bollinger : Bool
  rsi : Bool
  macd : Bool
  volume : Bool
  atrB : Bool
  adxB : Bool
  vwapB : Bool

/-- Explicit two-object store for the mutation claim: the caller's frame and
the local `df_with_indicators` copy that the function's statements write to. -/
structure CallerState where
  caller : DataFrame
  localDf : DataFrame

/-- A column-assignment statement targeting the local copy. -/
def setLocal (f : DataFrame → DataFrame) (st : CallerState) : CallerState :=
  { st with localDf := f st.localDf }

/-- A guarded `if indicators.get(key): df_with_indicators[col] = ...` step. -/
def stepIf (b : Bool) (f : DataFrame → DataFrame) (st : CallerState) : CallerState :=
  if b then setLocal f st else st

/-- `TechnicalIndicators.add_indicators` as a sequence of statements over the
two-object store: `df_with_indicators = df.copy()` then one guarded column
write per selected indicator, each targeting the copy.  The rolling standard
deviation (a square root, irrational in general) and the ADX column (whose
float semantics mix infinities from zero-ATR divisions) are taken as
parameters; every statement writes whatever column value its parameter or
embedded indicator produces. -/
def add_indicators_steps (stdFn : List ℚ → Nat → Col)
    (adxFn : List ℚ → List ℚ → List ℚ → Nat → Col)
    (df : DataFrame) (opts : IndicatorOpts) : CallerState :=
  let st0 : CallerState := { caller := df, localDf := df }
  let st1 := stepIf opts.ema9 (fun d => { d with ema9 := some ((EMA d.close 9).map some) }) st0
  let st2 := stepIf opts.ema21 (fun d => { d with ema21 := some ((EMA d.close 21).map some) }) st1
  let st3 := stepIf opts.ema50 (fun d => { d with ema50 := some ((EMA d.close 50).map some) }) st2
  let st4 := stepIf opts.ema200 (fun d => { d with ema200 := some ((EMA d.close 200).map some) }) st3
  let st5 := stepIf opts.bollinger
    (fun d =>
      let mid := rollingMean d.close 20
      let sd := stdFn d.close 20
      { d with
        bb_upper := czip (fun m s => m + s * 2) mid sd,
        bb_middle := mid,
        bb_lower := czip (fun m s => m - s * 2) mid sd })
    st4
  let st6 := stepIf opts.rsi (fun d => { d with rsi := RSIl d.close 14 }) st5
  let st7 := stepIf opts.macd
    (fun d =>
      let t := MACDl d.close 12 26 9
      { d with
        macd := some (t.1.map some),
        macd_signal := some (t.2.1.map some),
        macd_hist := some (t.2.2.map some) })
    st6
  let st8 := stepIf opts.atrB (fun d => { d with atrC := some (ATRl d.high d.low d.close 14) }) st7
  let st9 := stepIf opts.adxB (fun d => { d with adxC := some (adxFn d.high d.low d.close 14) }) st8
  stepIf opts.vwapB (fun d => { d with vwapC := some (vwapL d) }) st9

/-- Store for `generate_signals` seen as statements over the caller's frame
and the local `signals` frame it builds. -/
structure SigState where
  caller : DataFrame
  frame : List SignalRow

/-- `SignalGenerator.generate_signals` as statements over the two-object
store: every `.loc` write targets the local `signals` frame; the caller's
frame is only read. -/
def generate_signals_steps (df : DataFrame) (thr : ℚ) : SigState :=
  let st0 : SigState :=
    { caller := df,
      frame := (List.range (dfLen df)).map fun i =>
        { timestamp := vAt df.timestamp i, price := vAt df.close i,
          signal := 0, confidence := 0, reason := "" : SignalRow } }
  let st1 := { st0 with frame := emaFamily st0.caller st0.frame }
  let st2 := { st1 with frame := rsiFamily st1.caller st1.frame }
  let st3 := { st2 with frame := macdFamily st2.caller st2.frame }
  let st4 := { st3 with frame := bbFamily st3.caller st3.frame }
  let st5 := { st4 with frame := locSet (fun _ r => decide (r.confidence < thr)) (setSig 0) st4.frame }
  let st6 := { st5 with frame := locSet (fun _ r => decide (r.confidence < thr)) (setReason "") st5.frame }
  { st6 with frame := (st6.frame.drop (st6.frame.length - 10)).filter fun r => decide (thr ≤ r.confidence) }

/-- Modelled from the spec: the no-signal fallback as §4.4 words it — "if
current price is within 1% of the nearest known support → long at that
support; within 1% of nearest resistance → short; else a plain
trend-continuation setup using the 2-bar close direction with ±2*ATR stop and
symmetric target" — with the resistance test reached whenever the support
test did not fire. -/
def fallbackSpecC2 (df : DataFrame) (cp atr : ℚ) (levels : Option SRLevels) :
    Option ℚ × Option ℚ × Option ℚ :=
  let sup := match levels with | some L => L.support | none => []
  let res := match levels with | some L => L.resistance | none => []
  let nearSup : Option ℚ :=
    match argminAbs sup cp with
    | some ns => if |ns - cp| / cp < 0.01 then some ns else none
    | none => none
  let nearRes : Option ℚ :=
    match argminAbs res cp with
    | some nr => if |nr - cp| / cp < 0.01 then some nr else none
    | none => none
  match nearSup with
  | some ns => (some ns, some (ns + 3 * atr), some (ns - 2 * atr))
  | none =>
    match nearRes with
    | some nr => (some nr, some (nr - 3 * atr), some (nr + 2 * atr))
    | none =>
      if vAt df.close (df.close.length - 2) < vAt df.close (df.close.length - 1) then
        (some cp, some (cp + 2 * atr), some (cp - 2 * atr))
      else
        (some cp, some (cp - 2 * atr), some (cp + 2 * atr))

/-- Modelled from the spec, amended: the resistance-proximity test is only
reached when no support level exists at all; when support levels exist but
the price is not within 1% of the nearest one, the trend-continuation default
applies even if a resistance lies within 1%. -/
def fallbackAmendedC2 (df : DataFrame) (cp atr : ℚ) (levels : Option SRLevels) :
    Option ℚ × Option ℚ × Option ℚ :=
  let sup := match levels with | some L => L.support | none => []
  let res := match levels with | some L => L.resistance | none => []
  let nearSup : Option ℚ :=
    match argminAbs sup cp with
    | some ns => if |ns - cp| / cp < 0.01 then some ns else none
    | none => none
  let nearRes : Option ℚ :=
    match argminAbs res cp with
    | some nr => if |nr - cp| / cp < 0.01 then some nr else none
    | none => none
  match nearSup with
  | some ns => (some ns, some (ns + 3 * atr), some (ns - 2 * atr))
  | none =>
    if sup.isEmpty then
      match nearRes with
      | some nr => (some nr, some (nr - 3 * atr), some (nr + 2 * atr))
      | none =>
        if vAt df.close (df.close.length - 2) < vAt df.close (df.close.length - 1) then
          (some cp, some (cp + 2 * atr), some (cp - 2 * atr))
        else
          (some cp, some (cp - 2 * atr), some (cp + 2 * atr))
    else
      if vAt df.close (df.close.length - 2) < vAt df.close (df.close.length - 1) then
        (some cp, some (cp + 2 * atr), some (cp - 2 * atr))
      else
        (some cp, some (cp - 2 * atr), some (cp + 2 * atr))

/-- Levels triple with the fallback replaced by the spec-worded one. -/
def levelsTripleSpecC2 (df : DataFrame) : Option ℚ × Option ℚ × Option ℚ :=
  match (buysOf df).getLast? with
  | some rb => buySetup rb.price (atrOf df) (detect_support_resistance df 5)
  | none =>
    match (sellsOf df).getLast? with
    | some rs => sellSetup rs.price (atrOf df) (detect_support_resistance df 5)
    | none => fallbackSpecC2 df (cpOf df) (atrOf df) (detect_support_resistance df 5)

/-- Levels triple with the fallback replaced by the amended spec wording. -/
def levelsTripleAmendedC2 (df : DataFrame) : Option ℚ × Option ℚ × Option ℚ :=
  match (buysOf df).getLast? with
  | some rb => buySetup rb.price (atrOf df) (detect_support_resistance df 5)
  | none =>
    match (sellsOf df).getLast? with
    | some rs => sellSetup rs.price (atrOf df) (detect_support_resistance df 5)
    | none => fallbackAmendedC2 df (cpOf df) (atrOf df) (detect_support_resistance df 5)

/-- Spec-worded variant of the whole predictor (claim C2 reading). -/
def predictSpecC2 (df : DataFrame) : TradingSetup :=
  if dfLen df < 20 then
    { entry := none, exit := none, stop_loss := none, risk_reward := none, confidence := none }
  else assembleSetup df (levelsTripleSpecC2 df)

/-- Amended-spec variant of the whole predictor. -/
def predictAmendedC2 (df : DataFrame) : TradingSetup :=
  if dfLen df < 20 then
    { entry := none, exit := none, stop_loss := none, risk_reward := none, confidence := none }
  else assembleSetup df (levelsTripleAmendedC2 df)

/-- Empty candle table. -/
def dfEmpty : DataFrame := { index := [], timestamp := [] }

/-- Flat 21-bar table (close 100, high 125, low 75): no indicator columns, no
extrema, ATR 50, so the trend-continuation default computes an exit of
exactly 0. -/
def dfFlat : DataFrame :=
  { index := (List.range 21).map fun i => (i : ℚ),
    timestamp := (List.range 21).map fun i => (i : ℚ),
    high := List.replicate 21 125,
    low := List.replicate 21 75,
    close := List.replicate 21 100 }

/-- Flat 21-bar table with an EMA9/EMA21 crossover on the last bar: close
100, high 101, low 99 (ATR 2), EMA columns constant except a jump at the end. -/
def dfBuyW : DataFrame :=
  { index := (List.range 21).map fun i => (i : ℚ),
    timestamp := (List.range 21).map fun i => (i : ℚ),
    high := List.replicate 21 101,
    low := List.replicate 21 99,
    close := List.replicate 21 100,
    ema9 := some ((List.replicate 20 (some (1 : ℚ))) ++ [some 3]),
    ema21 := some (List.replicate 21 (some (2 : ℚ))) }

/-- Crossover table whose close sits off the 8-decimal grid and whose ATR is
half the close, so the buy-branch stop lands at exactly 0. -/
def dfBuyZ : DataFrame :=
  { index := (List.range 21).map fun i => (i : ℚ),
    timestamp := (List.range 21).map fun i => (i : ℚ),
    high := List.replicate 21 (3 * (100 + 3 / 10 ^ 9) / 2),
    low := List.replicate 21 (100 + 3 / 10 ^ 9),
    close := List.replicate 21 (100 + 3 / 10 ^ 9),
    ema9 := some ((List.replicate 20 (some (1 : ℚ))) ++ [some 3]),
    ema21 := some (List.replicate 21 (some (2 : ℚ))) }

/-- 21-bar table with one support dip (low 90 at bar 7), one resistance peak
(high 120 at bar 12) and a final close of 119: within 1% of the resistance
but far from the support, with no signals. -/
def dfC2 : DataFrame :=
  { index := (List.range 21).map fun i => (i : ℚ),
    timestamp := (List.range 21).map fun i => (i : ℚ),
    high := (List.range 21).map fun i => if i = 12 then (120 : ℚ) else 110,
    low := (List.range 21).map fun i => if i = 7 then (90 : ℚ) else 100,
    close := (List.range 21).map fun i =>
      if i = 19 then (119.5 : ℚ) else if i = 20 then 119 else 100 }

end Crypto

attribute [local semireducible] Rat.add Rat.mul Rat.sub Rat.inv Rat.ofScientific

namespace Crypto

/-- Rounding the `[0,1]`-clamped value to 2 decimals keeps it in `[0,1]` and
makes it an integer multiple of `1/100`. -/
lemma roundClamp (q : ℚ) :
    0 ≤ roundTo 2 (max 0 (min 1 q)) ∧ roundTo 2 (max 0 (min 1 q)) ≤ 1 ∧
      ∃ n : ℤ, roundTo 2 (max 0 (min 1 q)) = (n : ℚ) / 100 := by
  set z := max 0 (min 1 q) with hz
  have h0 : (0 : ℚ) ≤ z := le_max_left _ _
  have h1 : z ≤ 1 := max_le (by norm_num) (min_le_left _ _)
  have hr : roundTo 2 z = ((round (z * 100) : ℤ) : ℚ) / 100 := by
    unfold roundTo; norm_num
  have hlo : (0 : ℤ) ≤ round (z * 100) := by
    rw [round_eq, Int.le_floor]
    push_cast
    nlinarith
  have hhi : round (z * 100) ≤ 100 := by
    rw [round_eq, Int.floor_le_iff]
    push_cast
    nlinarith
  refine ⟨?_, ?_, round (z * 100), hr⟩
  · rw [hr]; positivity
  · rw [hr, div_le_one (by norm_num)]
    exact_mod_cast hhi

/-- C8.  For every input frame and non-none entry, exit and stop, the
composite setup confidence lies in `[0,1]` whatever adjustments accumulated
on the 0.5 base, and it is a value rounded to 2 decimal places (an integer
multiple of 1/100). -/
theorem C8_confidence_clamped (df : DataFrame) (e x s : ℚ) :
    0 ≤ calc_setup_confidence df (some e) (some x) (some s) ∧
      calc_setup_confidence df (some e) (some x) (some s) ≤ 1 ∧
      ∃ n : ℤ, calc_setup_confidence df (some e) (some x) (some s) = (n : ℚ) / 100 := by
  unfold calc_setup_confidence
  split
  · exact ⟨le_rfl, by norm_num, 0, by norm_num⟩
  · exact roundClamp _

/-- C1 counterexample.  On the empty frame the returned dictionary has no
`risk_reward` and no `confidence` key at all (modelled as `none`), rather
than carrying the value 0 the claim states. -/
theorem C1_cex :
    dfLen dfEmpty < 20 ∧
      (predict_price_levels dfEmpty).risk_reward ≠ some 0 ∧
      (predict_price_levels dfEmpty).confidence ≠ some 0 := by decide

/-- C1 amended.  On fewer than 20 rows `predict_price_levels` returns, without
raising, the partial dictionary whose three price keys are `None` and which
lacks the `risk_reward` and `confidence` keys entirely. -/
theorem C1_short_input (df : DataFrame) (h : dfLen df < 20) :
    predict_price_levels df =
      { entry := none, exit := none, stop_loss := none,
        risk_reward := none, confidence := none } := by
  unfold predict_price_levels
  exact if_pos h

/-- C1 witness: the theorem applied to the empty frame. -/
theorem C1_short_input_witness :
    predict_price_levels dfEmpty =
      { entry := none, exit := none, stop_loss := none,
        risk_reward := none, confidence := none } :=
  C1_short_input dfEmpty (by decide)

/-- Projection fact: a guarded statement never writes the caller's frame. -/
lemma caller_stepIf (b : Bool) (f : DataFrame → DataFrame) (st : CallerState) :
    (stepIf b f st).caller = st.caller := by
  unfold stepIf setLocal
  split <;> rfl

/-- C9.  Neither `add_indicators` (for any selection, any rolling-deviation
and ADX valuation) nor `generate_signals` writes the caller's candle frame:
threading the caller's object through every statement returns it unchanged,
while the result is a separately built structure. -/
theorem C9_no_mutation (stdFn : List ℚ → Nat → Col)
    (adxFn : List ℚ → List ℚ → List ℚ → Nat → Col)
    (df : DataFrame) (opts : IndicatorOpts) (thr : ℚ) :
    (add_indicators_steps stdFn adxFn df opts).caller = df ∧
      (generate_signals_steps df thr).caller = df := by
  constructor
  · unfold add_indicators_steps
    simp only [caller_stepIf]
  · rfl

/-- A fold of the `argminAbs` step function started from a set accumulator
stays set. -/
lemma argminAbs_cons (x : ℚ) (xs : List ℚ) (c : ℚ) :
    ∃ m, argminAbs (x :: xs) c = some m := by
  unfold argminAbs
  simp only [List.foldl_cons]
  induction xs generalizing x with
  | nil => exact ⟨x, rfl⟩
  | cons y ys ih =>
    simp only [List.foldl_cons]
    by_cases h : |y - c| < |x - c|
    · simpa [h] using ih y
    · simpa [h] using ih x

/-- Empty-list value of the first-minimiser fold. -/
lemma argminAbs_nil (c : ℚ) : argminAbs [] c = none := rfl

/-- The coded no-signal fallback coincides with the amended spec wording. -/
lemma fallback_eq (df : DataFrame) (cp atr : ℚ) (levels : Option SRLevels) :
    fallbackSetup df cp atr levels = fallbackAmendedC2 df cp atr levels := by
  unfold fallbackSetup fallbackAmendedC2
  cases levels with
  | none => rfl
  | some L =>
    dsimp only
    cases hsup : L.support with
    | nil =>
      cases hres : L.resistance with
      | nil => rfl
      | cons y ys =>
        obtain ⟨m, hm⟩ := argminAbs_cons y ys cp
        by_cases hnear : |m - cp| / cp < 0.01 <;>
          simp [argminAbs_nil, hm, hnear]
    | cons x xs =>
      obtain ⟨m, hm⟩ := argminAbs_cons x xs cp
      by_cases hnear : |m - cp| / cp < 0.01 <;>
        simp [hm, hnear]

/-- The levels triple coincides with the amended spec wording on every frame. -/
lemma triple_eq_amended (df : DataFrame) : levelsTriple df = levelsTripleAmendedC2 df := by
  unfold levelsTriple levelsTripleAmendedC2
  cases (buysOf df).getLast? with
  | some rb => rfl
  | none =>
    cases (sellsOf df).getLast? with
    | some rs => rfl
    | none => exact fallback_eq df (cpOf df) (atrOf df) (detect_support_resistance df 5)

/-- C2 counterexample.  On `dfC2` the recent-signal window holds neither a buy
nor a sell signal, yet the coded predictor and the claim's fallback disagree:
the close 119 is within 1% of the resistance 120, but because a support level
exists (at 90, far away) the code never reaches the resistance test and
returns a trend-continuation setup at 119 instead of a short at 120. -/
theorem C2_cex :
    buysOf dfC2 = [] ∧ sellsOf dfC2 = [] ∧ 20 ≤ dfLen dfC2 ∧
      predict_price_levels dfC2 ≠ predictSpecC2 dfC2 := by decide

/-- C2 amended.  The fallback tests support proximity whenever support levels
exist; the resistance-proximity test runs only when no support level exists
at all; in every remaining case the trend-continuation setup applies.  With
this reading the predictor equals the spec-worded variant on every frame on
which the program returns at all — i.e. on which the EMA-50 confidence
assignment of `generate_signals` does not raise `ValueError`
(`emaValueError df = false`); on raising frames `predict_price_levels`
propagates the exception instead of producing any setup. -/
theorem C2_fallback (df : DataFrame) ( _hok : emaValueError df = false) :
    predict_price_levels df = predictAmendedC2 df := by
  unfold predict_price_levels predictAmendedC2
  rw [triple_eq_amended]

/-- C2 witness: the amended equality applied to the non-raising frame
`dfC2` (no indicator columns, hence no signals and no exception). -/
theorem C2_fallback_witness : predict_price_levels dfC2 = predictAmendedC2 dfC2 :=
  C2_fallback dfC2 (by decide)

/-- Resistance list carried by the level dictionary (empty when absent). -/
def resOf (levels : Option SRLevels) : List ℚ :=
  match levels with
  | some L => L.resistance
  | none => []

/-- Support list carried by the level dictionary (empty when absent). -/
def supOf (levels : Option SRLevels) : List ℚ :=
  match levels with
  | some L => L.support
  | none => []

/-- The claim's long-exit rule: nearest known resistance strictly above the
entry, else 2% above the entry. -/
def exitOfBuy (levels : Option SRLevels) (e : ℚ) : ℚ :=
  match ((resOf levels).filter fun r => decide (e < r)).min? with
  | some m => m
  | none => e * 1.02

/-- The claim's long-stop rule: nearest known support strictly below the
entry, else `entry - 2*atr`. -/
def stopOfBuy (levels : Option SRLevels) (e atr : ℚ) : ℚ :=
  match ((supOf levels).filter fun r => decide (r < e)).max? with
  | some m => m
  | none => e - 2 * atr

/-- The coded buy branch produces exactly the claim's exit and stop rules. -/
lemma buySetup_eq (e atr : ℚ) (levels : Option SRLevels) :
    buySetup e atr levels =
      (some e, some (exitOfBuy levels e), some (stopOfBuy levels e atr)) := by
  unfold buySetup exitOfBuy stopOfBuy resOf supOf
  cases levels with
  | none => rfl
  | some L =>
    dsimp only
    have hx : ∀ ll : List ℚ,
        (if ll.isEmpty = true then e * 1.02
          else match ll.filter fun r => decide (e < r) with
            | [] => e * 1.02
            | y :: ys => minL y ys) =
        (match (ll.filter fun r => decide (e < r)).min? with
          | some m => m
          | none => e * 1.02) := by
      intro ll
      cases ll with
      | nil => rfl
      | cons a as =>
        simp only [List.isEmpty_cons, if_neg]
        cases h : (a :: as).filter fun r => decide (e < r) with
        | nil => rfl
        | cons y ys => rfl
    have hs : ∀ ll : List ℚ,
        (if ll.isEmpty = true then e - 2 * atr
          else match ll.filter fun r => decide (r < e) with
            | [] => e - 2 * atr
            | y :: ys => maxL y ys) =
        (match (ll.filter fun r => decide (r < e)).max? with
          | some m => m
          | none => e - 2 * atr) := by
      intro ll
      cases ll with
      | nil => rfl
      | cons a as =>
        simp only [List.isEmpty_cons, if_neg]
        cases h : (a :: as).filter fun r => decide (r < e) with
        | nil => rfl
        | cons y ys => rfl
    rw [hx L.resistance, hs L.support]

/-- C7 amended.  With a recent buy signal whose price, computed exit and
computed stop are all nonzero, the returned setup is: entry = the signal's
price, exit = nearest resistance strictly above entry else entry*1.02, stop =
nearest support strictly below entry else entry - 2*ATR — each rounded to 8
decimals — and risk_reward = |entry-exit| / |entry-stop| rounded to 2
decimals, with 0 when the stop equals the entry.  The statement is restricted
to frames on which `generate_signals` returns at all (`emaValueError df =
false`): an `ema50`-bearing crossover frame makes the program raise
`ValueError` instead of returning any dictionary. -/
theorem C7_buy_levels (df : DataFrame) (rb : SignalRow)
    (h20 : 20 ≤ dfLen df) ( _hok : emaValueError df = false)
    (hb : (buysOf df).getLast? = some rb)
    (he : rb.price ≠ 0)
    (hx : exitOfBuy (detect_support_resistance df 5) rb.price ≠ 0)
    (hs : stopOfBuy (detect_support_resistance df 5) rb.price (atrOf df) ≠ 0) :
    predict_price_levels df =
      { entry := some (roundTo 8 rb.price),
        exit := some (roundTo 8 (exitOfBuy (detect_support_resistance df 5) rb.price)),
        stop_loss := some (roundTo 8 (stopOfBuy (detect_support_resistance df 5) rb.price (atrOf df))),
        risk_reward := some (roundTo 2
          (if stopOfBuy (detect_support_resistance df 5) rb.price (atrOf df) = rb.price then 0
            else |rb.price - exitOfBuy (detect_support_resistance df 5) rb.price| /
              |rb.price - stopOfBuy (detect_support_resistance df 5) rb.price (atrOf df)|)),
        confidence := some (calc_setup_confidence df (some rb.price)
          (some (exitOfBuy (detect_support_resistance df 5) rb.price))
          (some (stopOfBuy (detect_support_resistance df 5) rb.price (atrOf df)))) } := by
  have hlt : ¬ dfLen df < 20 := by omega
  unfold predict_price_levels
  rw [if_neg hlt]
  unfold levelsTriple
  rw [hb]
  dsimp only
  rw [buySetup_eq]
  unfold assembleSetup
  set E := rb.price with hE
  set X := exitOfBuy (detect_support_resistance df 5) rb.price with hX
  set S := stopOfBuy (detect_support_resistance df 5) rb.price (atrOf df) with hS
  dsimp only
  have hte : truthy (some E) = true := by simp [truthy, he]
  have htx : truthy (some X) = true := by simp [truthy, hx]
  have hts : truthy (some S) = true := by simp [truthy, hs]
  simp only [hte, htx, hts, Bool.and_self, if_true, Option.getD_some]
  by_cases hse : S = E
  · simp [hse]
  · have hnz : E - S ≠ 0 := sub_ne_zero.mpr fun hh => hse hh.symm
    have hpos : 0 < |E - S| := abs_pos.mpr hnz
    simp [if_pos hpos, if_neg hse, hnz]

/-- C7 witness: the amended theorem applied to the crossover frame `dfBuyW`
(entry 100, no levels, ATR 2). -/
theorem C7_buy_levels_witness :
    predict_price_levels dfBuyW =
      { entry := some (roundTo 8 (100 : ℚ)),
        exit := some (roundTo 8 (exitOfBuy (detect_support_resistance dfBuyW 5) 100)),
        stop_loss := some (roundTo 8 (stopOfBuy (detect_support_resistance dfBuyW 5) 100 (atrOf dfBuyW))),
        risk_reward := some (roundTo 2
          (if stopOfBuy (detect_support_resistance dfBuyW 5) 100 (atrOf dfBuyW) = 100 then 0
            else |100 - exitOfBuy (detect_support_resistance dfBuyW 5) 100| /
              |100 - stopOfBuy (detect_support_resistance dfBuyW 5) 100 (atrOf dfBuyW)|)),
        confidence := some (calc_setup_confidence dfBuyW (some 100)
          (some (exitOfBuy (detect_support_resistance dfBuyW 5) 100))
          (some (stopOfBuy (detect_support_resistance dfBuyW 5) 100 (atrOf dfBuyW)))) } :=
  C7_buy_levels dfBuyW
    { timestamp := 20, price := 100, signal := 1, confidence := 0.6,
      reason := "EMA9 crossed above EMA21" }
    (by decide) (by decide) (by decide) (by decide) (by decide) (by decide)

/-- C7 counterexample.  On `dfBuyZ` the most recent buy signal's price is
`100 + 3e-9`, but the returned entry is the rounded 100, the stop
(`entry - 2*ATR = 0` exactly) comes back as `None` through Python truthiness,
and the risk-reward ratio is 0 rather than `|entry-exit| / |entry-stop|`. -/
theorem C7_cex :
    (buysOf dfBuyZ).getLast? = some
        { timestamp := 20, price := 100 + 3 / 10 ^ 9, signal := 1,
          confidence := 0.6, reason := "EMA9 crossed above EMA21" } ∧
      (predict_price_levels dfBuyZ).entry = some 100 ∧
      (100 : ℚ) ≠ 100 + 3 / 10 ^ 9 ∧
      (predict_price_levels dfBuyZ).stop_loss = none ∧
      (predict_price_levels dfBuyZ).risk_reward = some 0 := by decide

/-- The trend-continuation default assigns all three levels. -/
lemma trendTriple_allSome (df : DataFrame) (cp atr : ℚ) :
    ∃ e x s,
      (if vAt df.close (df.close.length - 2) < vAt df.close (df.close.length - 1) then
          ((some cp, some (cp + 2 * atr), some (cp - 2 * atr)) :
            Option ℚ × Option ℚ × Option ℚ)
        else (some cp, some (cp - 2 * atr), some (cp + 2 * atr))) =
      (some e, some x, some s) := by
  split
  · exact ⟨_, _, _, rfl⟩
  · exact ⟨_, _, _, rfl⟩

/-- The no-signal fallback always assigns all three levels. -/
lemma fallback_allSome (df : DataFrame) (cp atr : ℚ) (levels : Option SRLevels) :
    ∃ e x s, fallbackSetup df cp atr levels = (some e, some x, some s) := by
  unfold fallbackSetup
  cases levels with
  | none => exact trendTriple_allSome df cp atr
  | some L =>
    dsimp only
    cases hsup : L.support with
    | nil =>
      cases hres : L.resistance with
      | nil => exact trendTriple_allSome df cp atr
      | cons y ys =>
        obtain ⟨m, hm⟩ := argminAbs_cons y ys cp
        simp only [List.isEmpty_nil, List.isEmpty_cons, hm]
        by_cases hnear : |m - cp| / cp < 0.01
        · simp only [if_pos hnear]; exact ⟨_, _, _, rfl⟩
        · simp only [if_neg hnear]; exact trendTriple_allSome df cp atr
    | cons x xs =>
      obtain ⟨m, hm⟩ := argminAbs_cons x xs cp
      simp only [List.isEmpty_cons, hm]
      by_cases hnear : |m - cp| / cp < 0.01
      · simp only [if_pos hnear]; exact ⟨_, _, _, rfl⟩
      · simp only [if_neg hnear]; exact trendTriple_allSome df cp atr

/-- Every branch of the level computation assigns all three levels. -/
lemma levelsTriple_allSome (df : DataFrame) :
    ∃ e x s, levelsTriple df = (some e, some x, some s) := by
  unfold levelsTriple
  cases (buysOf df).getLast? with
  | some rb => dsimp only; rw [buySetup_eq]; exact ⟨_, _, _, rfl⟩
  | none =>
    cases (sellsOf df).getLast? with
    | some rs => dsimp only; unfold sellSetup; exact ⟨_, _, _, rfl⟩
    | none => dsimp only; exact fallback_allSome df _ _ _

/-- C10 amended.  On 20 or more rows, whenever the program returns at all
(the EMA-50 confidence assignment does not raise, `emaValueError df =
false`), every branch computes all three levels; each returned price field
carries the 8-decimal rounding of its level unless that level is exactly 0,
in which case Python truthiness returns `None` for it (so a partially-`None`
setup does occur exactly at zero levels).  On an `ema50`-bearing crossover
frame the program instead raises `ValueError` and returns nothing. -/
theorem C10_full_setup (df : DataFrame) (h20 : 20 ≤ dfLen df)
    ( _hok : emaValueError df = false) :
    ∃ e x s, levelsTriple df = (some e, some x, some s) ∧
      (predict_price_levels df).entry = (if e = 0 then none else some (roundTo 8 e)) ∧
      (predict_price_levels df).exit = (if x = 0 then none else some (roundTo 8 x)) ∧
      (predict_price_levels df).stop_loss = (if s = 0 then none else some (roundTo 8 s)) := by
  obtain ⟨e, x, s, ht⟩ := levelsTriple_allSome df
  have hlt : ¬ dfLen df < 20 := by omega
  refine ⟨e, x, s, ht, ?_, ?_, ?_⟩ <;>
    (unfold predict_price_levels
     rw [if_neg hlt, ht]
     unfold assembleSetup
     dsimp only
     by_cases hz1 : e = 0 <;> by_cases hz2 : x = 0 <;> by_cases hz3 : s = 0 <;>
       simp [truthy, hz1, hz2, hz3])

/-- C10 witness: the amended theorem applied to the flat frame, whose
trend-continuation exit is exactly 0 and comes back as `None`. -/
theorem C10_full_setup_witness :
    ∃ e x s, levelsTriple dfFlat = (some e, some x, some s) ∧
      (predict_price_levels dfFlat).entry = (if e = 0 then none else some (roundTo 8 e)) ∧
      (predict_price_levels dfFlat).exit = (if x = 0 then none else some (roundTo 8 x)) ∧
      (predict_price_levels dfFlat).stop_loss = (if s = 0 then none else some (roundTo 8 s)) :=
  C10_full_setup dfFlat (by decide) (by decide)

/-- C10 counterexample.  The flat frame has 21 rows and strictly positive
prices, yet the returned exit is `None`: the claim's "always fully populated"
fails at a computed level of exactly 0. -/
theorem C10_cex :
    20 ≤ dfLen dfFlat ∧ (∀ q ∈ dfFlat.close, 0 < q) ∧ (∀ q ∈ dfFlat.high, 0 < q) ∧
      (∀ q ∈ dfFlat.low, 0 < q) ∧ (predict_price_levels dfFlat).exit = none := by decide

/-- The signal row produced by the crossover bar of `dfBuyW`. -/
def rowBuyW : SignalRow :=
  { timestamp := 20, price := 100, signal := 1, confidence := 0.6,
    reason := "EMA9 crossed above EMA21" }

/-- Three-bar table with an EMA9/EMA21 crossover on the last bar (confidence
0.6), used against a threshold of 0.7. -/
def dfC3 : DataFrame :=
  { index := [0, 1, 2], timestamp := [0, 1, 2], close := [100, 100, 100],
    ema9 := some [some 1, some 1, some 3], ema21 := some [some 2, some 2, some 2] }

/-- Row lookup through one `.loc` statement. -/
lemma locSet_getElem? (m : Nat → SignalRow → Bool) (u : Nat → SignalRow → SignalRow)
    (rows : List SignalRow) (i : Nat) :
    (locSet m u rows)[i]? = rows[i]?.map fun r => if m i r then u i r else r := by
  unfold locSet
  rw [List.getElem?_mapIdx]

/-- A `.loc` statement keeps the row count. -/
lemma locSet_length (m : Nat → SignalRow → Bool) (u : Nat → SignalRow → SignalRow)
    (rows : List SignalRow) : (locSet m u rows).length = rows.length := by
  unfold locSet
  rw [List.length_mapIdx]

/-- Invariant tying the signal and confidence columns together: a neutral
signal always carries confidence 0. -/
abbrev sigConfInv (rows : List SignalRow) : Prop :=
  ∀ (i : Nat) (r : SignalRow), rows[i]? = some r → r.signal = 0 → r.confidence = 0

/-- One buy or sell triple of `.loc` statements (set signal, set confidence,
set reason under the same re-evaluated mask) keeps the invariant whenever the
written signal is non-neutral and the mask only reads the confidence. -/
lemma sigConfInv_triple (m : Nat → SignalRow → Bool) (v : Nat → ℚ) (rs : String) (sg : Int)
    (hm : ∀ (i : Nat) (r r2 : SignalRow), r.confidence = r2.confidence → m i r = m i r2)
    (hsg : sg ≠ 0) (rows : List SignalRow) (h : sigConfInv rows) :
    sigConfInv (locSet m (setReason rs) (locSet m (setConf v) (locSet m (setSig sg) rows))) := by
  intro i r hr hs
  simp only [locSet_getElem?, Option.map_map] at hr
  rcases hrow : rows[i]? with _ | r0 <;> rw [hrow] at hr
  · exact Option.noConfusion hr
  · simp only [Option.map_some', Option.some_inj, Function.comp_apply] at hr
    by_cases hm0 : m i r0 = true
    · rw [if_pos hm0] at hr
      have h1 : m i (setSig sg i r0) = true := by rw [hm i (setSig sg i r0) r0 rfl]; exact hm0
      rw [if_pos h1] at hr
      by_cases h2 : m i (setConf v i (setSig sg i r0)) = true
      · rw [if_pos h2] at hr
        rw [← hr] at hs
        exact absurd hs hsg
      · rw [if_neg h2] at hr
        rw [← hr] at hs
        exact absurd hs hsg
    · rw [if_neg hm0] at hr
      rw [if_neg (show ¬ m i r0 = true from hm0)] at hr
      rw [if_neg (show ¬ m i r0 = true from hm0)] at hr
      rw [← hr] at hs
      rw [← hr]
      exact h i r0 hrow hs

/-- The EMA crossover block keeps the invariant. -/
lemma sigConfInv_ema (df : DataFrame) (rows : List SignalRow) (h : sigConfInv rows) :
    sigConfInv (emaFamily df rows) := by
  unfold emaFamily
  rcases df.ema9 with _ | e9
  · exact h
  rcases df.ema21 with _ | e21
  · exact h
  dsimp only
  apply sigConfInv_triple
  · intro i r r2 _; rfl
  · decide
  apply sigConfInv_triple
  · intro i r r2 _; rfl
  · decide
  exact h

/-- The RSI block keeps the invariant. -/
lemma sigConfInv_rsi (df : DataFrame) (rows : List SignalRow) (h : sigConfInv rows) :
    sigConfInv (rsiFamily df rows) := by
  unfold rsiFamily
  rcases df.rsi with _ | rc
  · exact h
  dsimp only
  apply sigConfInv_triple
  · intro i r r2 hc; rw [hc]
  · decide
  apply sigConfInv_triple
  · intro i r r2 hc; rw [hc]
  · decide
  exact h

/-- The MACD block keeps the invariant. -/
lemma sigConfInv_macd (df : DataFrame) (rows : List SignalRow) (h : sigConfInv rows) :
    sigConfInv (macdFamily df rows) := by
  unfold macdFamily
  rcases df.macd with _ | mc
  · exact h
  rcases df.macd_signal with _ | sc
  · exact h
  dsimp only
  apply sigConfInv_triple
  · intro i r r2 hc; rw [hc]
  · decide
  apply sigConfInv_triple
  · intro i r r2 hc; rw [hc]
  · decide
  exact h

/-- The Bollinger block keeps the invariant. -/
lemma sigConfInv_bb (df : DataFrame) (rows : List SignalRow) (h : sigConfInv rows) :
    sigConfInv (bbFamily df rows) := by
  unfold bbFamily
  rcases df.bb_upper with _ | up
  · exact h
  rcases df.bb_lower with _ | lo
  · exact h
  rcases df.bb_middle with _ | mid
  · exact h
  dsimp only
  apply sigConfInv_triple
  · intro i r r2 hc; rw [hc]
  · decide
  apply sigConfInv_triple
  · intro i r r2 hc; rw [hc]
  · decide
  exact h

/-- After the four families a neutral row still carries confidence 0. -/
lemma sigConfInv_raw (df : DataFrame) : sigConfInv (signalsRaw df) := by
  unfold signalsRaw
  apply sigConfInv_bb
  apply sigConfInv_macd
  apply sigConfInv_rsi
  apply sigConfInv_ema
  intro i r hr _
  rw [List.getElem?_map] at hr
  rcases hidx : (List.range (dfLen df))[i]? with _ | j <;> rw [hidx] at hr
  · exact Option.noConfusion hr
  · simp only [Option.map_some', Option.some_inj] at hr
    rw [← hr]

/-- The EMA block keeps the row count. -/
lemma length_ema (df : DataFrame) (rows : List SignalRow) :
    (emaFamily df rows).length = rows.length := by
  unfold emaFamily
  rcases df.ema9 with _ | e9
  · rfl
  rcases df.ema21 with _ | e21
  · rfl
  dsimp only
  simp only [locSet_length]

/-- The RSI block keeps the row count. -/
lemma length_rsi (df : DataFrame) (rows : List SignalRow) :
    (rsiFamily df rows).length = rows.length := by
  unfold rsiFamily
  rcases df.rsi with _ | rc
  · rfl
  dsimp only
  simp only [locSet_length]

/-- The MACD block keeps the row count. -/
lemma length_macd (df : DataFrame) (rows : List SignalRow) :
    (macdFamily df rows).length = rows.length := by
  unfold macdFamily
  rcases df.macd with _ | mc
  · rfl
  rcases df.macd_signal with _ | sc
  · rfl
  dsimp only
  simp only [locSet_length]

/-- The Bollinger block keeps the row count. -/
lemma length_bb (df : DataFrame) (rows : List SignalRow) :
    (bbFamily df rows).length = rows.length := by
  unfold bbFamily
  rcases df.bb_upper with _ | up
  · rfl
  rcases df.bb_lower with _ | lo
  · rfl
  rcases df.bb_middle with _ | mid
  · rfl
  dsimp only
  simp only [locSet_length]

/-- The signals frame has one row per candle. -/
lemma length_raw (df : DataFrame) : (signalsRaw df).length = dfLen df := by
  unfold signalsRaw
  rw [length_bb, length_macd, length_rsi, length_ema, List.length_map, List.length_range]

/-- The thresholded frame has one row per candle. -/
lemma length_thresholded (df : DataFrame) (thr : ℚ) :
    (signalsThresholded df thr).length = dfLen df := by
  unfold signalsThresholded
  simp only [locSet_length, length_raw]

/-- Row lookup in the thresholded frame: below-threshold rows get a neutral
signal and an empty reason, everything else (the confidence column included)
is untouched. -/
lemma thresholded_getElem? (df : DataFrame) (thr : ℚ) (i : Nat) :
    (signalsThresholded df thr)[i]? = (signalsRaw df)[i]?.map fun r =>
      if r.confidence < thr then { r with signal := 0, reason := "" } else r := by
  unfold signalsThresholded
  simp only [locSet_getElem?, Option.map_map]
  apply congrArg (fun f => Option.map f (signalsRaw df)[i]?)
  funext r
  by_cases h : r.confidence < thr <;>
    simp [h, setSig, setReason, Function.comp]

/-- C3 counterexample.  With threshold 0.7, the crossover bar (confidence
0.6 < 0.7) is reset to signal 0 with a cleared reason, but its confidence
stays 0.6 — it does not become 0 as the claim states. -/
theorem C3_cex :
    (signalsThresholded dfC3 0.7)[2]? = some
        { timestamp := 2, price := 100, signal := 0, confidence := 0.6, reason := "" } ∧
      (0.6 : ℚ) < 0.7 ∧ (0.6 : ℚ) ≠ 0 := by decide

/-- C3 amended.  On every frame on which `generate_signals` returns at all
(the EMA-50 confidence assignment does not raise, `emaValueError df =
false`): bars below the confidence threshold are reset to a neutral signal
with a cleared reason while their confidence column retains its value; the
returned frame is the most recent 10 rows of the thresholded frame filtered
to confidence at or above the threshold, and for a positive threshold every
returned row is non-neutral and meets the threshold. -/
theorem C3_threshold (df : DataFrame) (thr : ℚ) ( _hok : emaValueError df = false) :
    (∀ (i : Nat) (r : SignalRow), (signalsThresholded df thr)[i]? = some r →
        r.confidence < thr → r.signal = 0 ∧ r.reason = "") ∧
      (∀ r : SignalRow, r ∈ generate_signals df thr ↔
        r ∈ (signalsThresholded df thr).drop ((signalsThresholded df thr).length - 10) ∧
          thr ≤ r.confidence) ∧
      (0 < thr → ∀ r ∈ generate_signals df thr, r.signal ≠ 0 ∧ thr ≤ r.confidence) := by
  have hchar : ∀ (i : Nat) (r : SignalRow), (signalsThresholded df thr)[i]? = some r →
      ∃ r0, (signalsRaw df)[i]? = some r0 ∧
        r = if r0.confidence < thr then { r0 with signal := 0, reason := "" } else r0 := by
    intro i r hr
    rw [thresholded_getElem? df thr i] at hr
    rcases hrow : (signalsRaw df)[i]? with _ | r0 <;> rw [hrow] at hr
    · exact Option.noConfusion hr
    · simp only [Option.map_some', Option.some_inj] at hr
      exact ⟨r0, rfl, hr.symm⟩
  have hmem : ∀ r : SignalRow, r ∈ generate_signals df thr ↔
      r ∈ (signalsThresholded df thr).drop ((signalsThresholded df thr).length - 10) ∧
        thr ≤ r.confidence := by
    intro r
    unfold generate_signals
    by_cases hn : dfLen df = 0
    · rw [if_pos hn]
      have hthr0 : signalsThresholded df thr = [] :=
        List.length_eq_zero.mp (by rw [length_thresholded, hn])
      simp [hthr0]
    · rw [if_neg hn]
      simp [List.mem_filter]
  refine ⟨?_, hmem, ?_⟩
  · intro i r hr hlow
    obtain ⟨r0, _, hform⟩ := hchar i r hr
    by_cases hc : r0.confidence < thr
    · rw [if_pos hc] at hform
      rw [hform]
      exact ⟨rfl, rfl⟩
    · rw [if_neg hc] at hform
      rw [hform] at hlow
      exact absurd hlow hc
  · intro hthr r hrmem
    obtain ⟨hdrop, hconf⟩ := (hmem r).mp hrmem
    have hmem2 : r ∈ signalsThresholded df thr := List.drop_subset _ _ hdrop
    obtain ⟨i, hi⟩ := List.mem_iff_getElem?.mp hmem2
    obtain ⟨r0, hrow0, hform⟩ := hchar i r hi
    refine ⟨?_, hconf⟩
    by_cases hc : r0.confidence < thr
    · rw [if_pos hc] at hform
      rw [hform] at hconf
      exact absurd (lt_of_le_of_lt hconf hc) (lt_irrefl _)
    · rw [if_neg hc] at hform
      subst hform
      intro hzero
      have h0 : r.confidence = 0 := sigConfInv_raw df i r hrow0 hzero
      rw [h0] at hconf
      exact absurd (lt_of_le_of_lt hconf hthr) (lt_irrefl _)

/-- C3 witness: the third conjunct of the theorem applied to the crossover
frame `dfBuyW` at threshold 0.6, whose single returned row is non-neutral. -/
theorem C3_threshold_witness :
    rowBuyW.signal ≠ 0 ∧ (0.6 : ℚ) ≤ rowBuyW.confidence :=
  (C3_threshold dfBuyW 0.6 (by decide)).2.2 (by norm_num) rowBuyW (by decide)

/-- Every gain is nonnegative. -/
lemma gains_nonneg (l : List ℚ) : ∀ x ∈ gains l, 0 ≤ x := by
  intro x hx
  unfold gains at hx
  rw [List.mem_map] at hx
  obtain ⟨i, _, hfx⟩ := hx
  rcases i with _ | j
  · rw [← hfx]
  · rw [← hfx]
    dsimp only
    split
    · linarith [show (0:ℚ) < vAt l (j+1) - vAt l j by assumption]
    · rfl

/-- Every loss is nonnegative. -/
lemma losses_nonneg (l : List ℚ) : ∀ x ∈ losses l, 0 ≤ x := by
  intro x hx
  unfold losses at hx
  rw [List.mem_map] at hx
  obtain ⟨i, _, hfx⟩ := hx
  rcases i with _ | j
  · rw [← hfx]
  · rw [← hfx]
    dsimp only
    split
    · linarith [show vAt l (j+1) - vAt l j < 0 by assumption]
    · rfl

/-- `vAt` of a nonnegative column is nonnegative. -/
lemma vAt_nonneg (l : List ℚ) (h : ∀ x ∈ l, 0 ≤ x) (i : Nat) : 0 ≤ vAt l i := by
  unfold vAt
  rw [List.getD_eq_getElem?_getD]
  rcases hx : l[i]? with _ | v
  · simp
  · simp only [Option.getD_some]
    exact h v (List.getElem?_mem hx)

/-- A defined rolling-mean cell of a nonnegative series is nonnegative. -/
lemma rollingMean_nonneg (l : List ℚ) (w : Nat) (i : Nat) (v : ℚ)
    (hl : ∀ x ∈ l, 0 ≤ x) (h : cellAt (rollingMean l w) i = some v) : 0 ≤ v := by
  unfold cellAt rollingMean at h
  rw [List.getElem?_map] at h
  by_cases hi : i < l.length
  · rw [List.getElem?_range hi] at h
    simp only [Option.map_some'] at h
    rw [show ∀ o : Cell, (some o).join = o from fun _ => rfl] at h
    split at h
    · rename_i hw
      have hv : ((l.drop (i + 1 - w)).take w).sum / (w : ℚ) = v := by
        exact Option.some_inj.mp h
      rw [← hv]
      apply div_nonneg
      · apply List.sum_nonneg
        intro x hx
        exact hl x (List.drop_subset _ _ (List.take_subset _ _ hx))
      · exact_mod_cast Nat.zero_le w
    · exact Option.noConfusion h
  · rw [List.getElem?_eq_none (by rw [List.length_range]; omega)] at h
    exact Option.noConfusion h

/-- A zero smoothing window never defines an average. -/
lemma wilderAvg_zero (g : List ℚ) (i : Nat) : wilderAvg g 0 i = none := by
  induction i with
  | zero => rfl
  | succ j ih =>
    unfold wilderAvg
    rw [if_neg (by omega), if_neg (by omega), ih]

/-- A defined Wilder average of a nonnegative series is nonnegative. -/
lemma wilderAvg_nonneg (g : List ℚ) (tp : Nat) (hg : ∀ x ∈ g, 0 ≤ x) :
    ∀ (i : Nat) (v : ℚ), wilderAvg g tp i = some v → 0 ≤ v := by
  intro i
  induction i with
  | zero =>
    intro v h
    unfold wilderAvg at h
    split at h
    · exact rollingMean_nonneg g 1 0 v hg h
    · exact Option.noConfusion h
  | succ j ih =>
    intro v h
    unfold wilderAvg at h
    split at h
    · exact Option.noConfusion h
    · split at h
      · exact rollingMean_nonneg g tp (j + 1) v hg h
      · rcases htp : tp with _ | tp1
        · subst htp
          rw [wilderAvg_zero g j] at h
          exact Option.noConfusion h
        · subst htp
          rcases hw : wilderAvg g (tp1 + 1) j with _ | a <;> rw [hw] at h
          · exact Option.noConfusion h
          · have ha : 0 ≤ a := ih a hw
            have hv : (a * (((tp1 + 1 : Nat) : ℚ) - 1) + vAt g (j + 1)) / ((tp1 + 1 : Nat) : ℚ) = v :=
              Option.some_inj.mp h
            rw [← hv]
            have h1 : (0 : ℚ) ≤ ((tp1 + 1 : Nat) : ℚ) - 1 := by push_cast; linarith
            have h2 : (0 : ℚ) < ((tp1 + 1 : Nat) : ℚ) := by positivity
            have h3 : 0 ≤ vAt g (j + 1) := vAt_nonneg g hg (j + 1)
            positivity

/-- Cell of a column built over the row range. -/
lemma cellAt_mapRange (n : Nat) (f : Nat → Cell) (i : Nat) :
    cellAt ((List.range n).map f) i = if i < n then f i else none := by
  unfold cellAt
  rw [List.getElem?_map]
  by_cases hi : i < n
  · rw [List.getElem?_range hi, if_pos hi]
    rfl
  · rw [if_neg hi, List.getElem?_eq_none (by rw [List.length_range]; omega)]
    rfl

/-- C5 amended.  Wherever the RSI column is defined (not NaN) its value lies
in `[0, 100]`, and it equals exactly 100 whenever the trailing average loss
is 0 while the average gain is nonzero; when both trailing averages are 0
(e.g. a flat series) the value is NaN, not 100. -/
theorem C5_rsi (xs : List ℚ) (tp : Nat) :
    (∀ (i : Nat) (v : ℚ), cellAt (RSIl xs tp) i = some v → 0 ≤ v ∧ v ≤ 100) ∧
      (∀ (i : Nat) (g : ℚ), cellAt (avgLossL xs tp) i = some 0 →
        cellAt (avgGainL xs tp) i = some g → g ≠ 0 → cellAt (RSIl xs tp) i = some 100) := by
  constructor
  · intro i v h
    unfold RSIl at h
    rw [cellAt_mapRange] at h
    split at h
    · rcases hG : wilderAvg (gains xs) tp i with _ | g <;> rw [hG] at h
      · exact Option.noConfusion h
      rcases hL : wilderAvg (losses xs) tp i with _ | lo <;> rw [hL] at h
      · exact Option.noConfusion h
      dsimp only at h
      by_cases hlo : lo = 0
      · rw [if_pos hlo] at h
        by_cases hg : g = 0
        · rw [if_pos hg] at h
          exact Option.noConfusion h
        · rw [if_neg hg] at h
          have : (100 : ℚ) = v := Option.some_inj.mp h
          rw [← this]
          norm_num
      · rw [if_neg hlo] at h
        have hv : 100 - 100 / (1 + g / lo) = v := Option.some_inj.mp h
        have hgn : 0 ≤ g := wilderAvg_nonneg (gains xs) tp (gains_nonneg xs) i g hG
        have hln : 0 ≤ lo := wilderAvg_nonneg (losses xs) tp (losses_nonneg xs) i lo hL
        have hlp : 0 < lo := lt_of_le_of_ne hln (Ne.symm hlo)
        have hrs : 0 ≤ g / lo := div_nonneg hgn (le_of_lt hlp)
        have hden : (1 : ℚ) ≤ 1 + g / lo := by linarith
        have hquot_pos : 0 < 100 / (1 + g / lo) := by positivity
        have hquot_le : 100 / (1 + g / lo) ≤ 100 := div_le_self (by norm_num) hden
        constructor
        · rw [← hv]; linarith
        · rw [← hv]; linarith
    · exact Option.noConfusion h
  · intro i g hl hg hgne
    unfold avgLossL at hl
    unfold avgGainL at hg
    rw [cellAt_mapRange] at hl hg
    unfold RSIl
    rw [cellAt_mapRange]
    split
    · rename_i hi
      rw [if_pos hi] at hl hg
      rw [hl, hg]
      dsimp only
      rw [if_pos rfl, if_neg hgne]
    · rename_i hi
      rw [if_neg hi] at hl
      exact Option.noConfusion hl

/-- C5 witness: the bounds applied to the series `[5, 6, 4]` with period 1
(RSI 0 at row 2) and the loss-free case applied to `[5, 6]` (RSI 100). -/
theorem C5_rsi_witness :
    ((0 : ℚ) ≤ 0 ∧ (0 : ℚ) ≤ 100) ∧ cellAt (RSIl [5, 6] 1) 1 = some 100 :=
  ⟨(C5_rsi [5, 6, 4] 1).1 2 0 (by decide),
    (C5_rsi [5, 6] 1).2 1 1 (by decide) (by decide) (by decide)⟩

/-- C5 counterexample.  On a flat 15-bar series the trailing average loss at
row 14 is exactly 0, yet the RSI there is NaN (0/0), not 100. -/
theorem C5_cex :
    cellAt (avgLossL (List.replicate 15 (5 : ℚ)) 14) 14 = some 0 ∧
      cellAt (RSIl (List.replicate 15 (5 : ℚ)) 14) 14 = none := by decide

/-- The fold computing `min(list)` is a lower bound. -/
lemma minL_le (x : ℚ) (xs : List ℚ) : ∀ y ∈ x :: xs, minL x xs ≤ y := by
  induction xs generalizing x with
  | nil =>
    intro y hy
    rw [List.mem_singleton] at hy
    rw [hy]
    exact le_refl _
  | cons z zs ih =>
    intro y hy
    have hfold : minL x (z :: zs) = minL (min x z) zs := rfl
    rcases List.mem_cons.mp hy with h1 | hy2
    · rw [hfold, h1]
      exact le_trans (ih (min x z) (min x z) (List.mem_cons_self _ _)) (min_le_left _ _)
    · rcases List.mem_cons.mp hy2 with h2 | h3
      · rw [hfold, h2]
        exact le_trans (ih (min x z) (min x z) (List.mem_cons_self _ _)) (min_le_right _ _)
      · rw [hfold]
        exact ih (min x z) y (List.mem_cons_of_mem _ h3)

/-- The fold computing `min(list)` picks a member. -/
lemma minL_mem (x : ℚ) (xs : List ℚ) : minL x xs ∈ x :: xs := by
  induction xs generalizing x with
  | nil => exact List.mem_singleton.mpr rfl
  | cons z zs ih =>
    have hfold : minL x (z :: zs) = minL (min x z) zs := rfl
    rw [hfold]
    rcases List.mem_cons.mp (ih (min x z)) with h1 | h2
    · rcases min_choice x z with hc | hc
      · rw [h1, hc]
        exact List.mem_cons_self _ _
      · rw [h1, hc]
        exact List.mem_cons_of_mem _ (List.mem_cons_self _ _)
    · exact List.mem_cons_of_mem _ (List.mem_cons_of_mem _ h2)

/-- The fold computing `max(list)` is an upper bound. -/
lemma maxL_ge (x : ℚ) (xs : List ℚ) : ∀ y ∈ x :: xs, y ≤ maxL x xs := by
  induction xs generalizing x with
  | nil =>
    intro y hy
    rw [List.mem_singleton] at hy
    rw [hy]
    exact le_refl _
  | cons z zs ih =>
    intro y hy
    have hfold : maxL x (z :: zs) = maxL (max x z) zs := rfl
    rcases List.mem_cons.mp hy with h1 | hy2
    · rw [hfold, h1]
      exact le_trans (le_max_left _ _) (ih (max x z) (max x z) (List.mem_cons_self _ _))
    · rcases List.mem_cons.mp hy2 with h2 | h3
      · rw [hfold, h2]
        exact le_trans (le_max_right _ _) (ih (max x z) (max x z) (List.mem_cons_self _ _))
      · rw [hfold]
        exact ih (max x z) y (List.mem_cons_of_mem _ h3)

/-- The fold computing `max(list)` picks a member. -/
lemma maxL_mem (x : ℚ) (xs : List ℚ) : maxL x xs ∈ x :: xs := by
  induction xs generalizing x with
  | nil => exact List.mem_singleton.mpr rfl
  | cons z zs ih =>
    have hfold : maxL x (z :: zs) = maxL (max x z) zs := rfl
    rw [hfold]
    rcases List.mem_cons.mp (ih (max x z)) with h1 | h2
    · rcases max_choice x z with hc | hc
      · rw [h1, hc]
        exact List.mem_cons_self _ _
      · rw [h1, hc]
        exact List.mem_cons_of_mem _ (List.mem_cons_self _ _)
    · exact List.mem_cons_of_mem _ (List.mem_cons_of_mem _ h2)

/-- Index form of membership in the `w`-slice starting at `a`. -/
lemma slice_getElem (l : List ℚ) (a w k : Nat) (hk : k < ((l.drop a).take w).length) :
    ((l.drop a).take w)[k] = vAt l (a + k) := by
  have hlen := hk
  rw [List.length_take, List.length_drop] at hlen
  have hkw : a + k < l.length := by omega
  rw [List.getElem_take, List.getElem_drop]
  rw [vAt, List.getD_eq_getElem l 0 hkw]

/-- The slice minimum is the least window value and is attained. -/
lemma sliceMin_spec (l : List ℚ) (a w : Nat) (hw : 0 < w) (hr : a + w ≤ l.length) :
    ∃ m, sliceMin l a w = some m ∧ (∃ k, k < w ∧ m = vAt l (a + k)) ∧
      ∀ k, k < w → m ≤ vAt l (a + k) := by
  have hlen : ((l.drop a).take w).length = w := by
    rw [List.length_take, List.length_drop]
    omega
  rcases hsl : (l.drop a).take w with _ | ⟨s0, srest⟩
  · rw [hsl] at hlen
    simp at hlen
    omega
  · have hlw : (s0 :: srest).length = w := by rw [← hsl]; exact hlen
    have hs : ∀ (k : Nat) (hk : k < (s0 :: srest).length), (s0 :: srest)[k] = vAt l (a + k) := by
      intro k hk
      have hk2 : k < ((l.drop a).take w).length := by rw [hsl]; exact hk
      rw [← slice_getElem l a w k hk2]
      exact (List.getElem_of_eq hsl hk2).symm
    refine ⟨minL s0 srest, ?_, ?_, ?_⟩
    · unfold sliceMin
      rw [hsl]
    · obtain ⟨k, hk, hval⟩ := List.mem_iff_getElem.mp (minL_mem s0 srest)
      refine ⟨k, by omega, ?_⟩
      rw [← hval]
      exact hs k hk
    · intro k hk
      have hklen : k < (s0 :: srest).length := by omega
      have hmem : (s0 :: srest)[k] ∈ s0 :: srest := List.getElem_mem _
      have hle := minL_le s0 srest _ hmem
      rw [hs k hklen] at hle
      exact hle

/-- The slice maximum is the greatest window value and is attained. -/
lemma sliceMax_spec (l : List ℚ) (a w : Nat) (hw : 0 < w) (hr : a + w ≤ l.length) :
    ∃ m, sliceMax l a w = some m ∧ (∃ k, k < w ∧ m = vAt l (a + k)) ∧
      ∀ k, k < w → vAt l (a + k) ≤ m := by
  have hlen : ((l.drop a).take w).length = w := by
    rw [List.length_take, List.length_drop]
    omega
  rcases hsl : (l.drop a).take w with _ | ⟨s0, srest⟩
  · rw [hsl] at hlen
    simp at hlen
    omega
  · have hlw : (s0 :: srest).length = w := by rw [← hsl]; exact hlen
    have hs : ∀ (k : Nat) (hk : k < (s0 :: srest).length), (s0 :: srest)[k] = vAt l (a + k) := by
      intro k hk
      have hk2 : k < ((l.drop a).take w).length := by rw [hsl]; exact hk
      rw [← slice_getElem l a w k hk2]
      exact (List.getElem_of_eq hsl hk2).symm
    refine ⟨maxL s0 srest, ?_, ?_, ?_⟩
    · unfold sliceMax
      rw [hsl]
    · obtain ⟨k, hk, hval⟩ := List.mem_iff_getElem.mp (maxL_mem s0 srest)
      refine ⟨k, by omega, ?_⟩
      rw [← hval]
      exact hs k hk
    · intro k hk
      have hklen : k < (s0 :: srest).length := by omega
      have hmem : (s0 :: srest)[k] ∈ s0 :: srest := List.getElem_mem _
      have hle := maxL_ge s0 srest _ hmem
      rw [hs k hklen] at hle
      exact hle

/-- A bar equals its centered rolling minimum exactly when its value is a
lower bound of the whole window. -/
lemma centeredMin_eq_iff (l : List ℚ) (w i : Nat) (hw : 0 < w)
    (hlo : (w - 1) / 2 ≤ i) (hhi : i + w / 2 < l.length) :
    cellAt (centeredMin l w) i = some (vAt l i) ↔
      ∀ j : Nat, i - (w - 1) / 2 ≤ j → j ≤ i + w / 2 → vAt l i ≤ vAt l j := by
  have hiL : i < l.length := by omega
  have hcell : cellAt (centeredMin l w) i = sliceMin l (i - (w - 1) / 2) w := by
    unfold centeredMin
    rw [cellAt_mapRange]
    rw [if_pos hiL, if_pos ⟨by omega, hlo, hhi⟩]
  have hdiv : (w - 1) / 2 + w / 2 = w - 1 := by omega
  have hr : (i - (w - 1) / 2) + w ≤ l.length := by omega
  obtain ⟨m, hm, ⟨k0, hk0, hk0v⟩, hbound⟩ := sliceMin_spec l (i - (w - 1) / 2) w hw hr
  rw [hcell, hm]
  constructor
  · intro hv j hj1 hj2
    have hmv : m = vAt l i := Option.some_inj.mp hv
    have hk : j - (i - (w - 1) / 2) < w := by omega
    have := hbound (j - (i - (w - 1) / 2)) hk
    rw [show (i - (w - 1) / 2) + (j - (i - (w - 1) / 2)) = j by omega] at this
    rw [← hmv]
    exact this
  · intro hall
    have h1 : m ≤ vAt l i := by
      have := hbound ((w - 1) / 2) (by omega)
      rw [show (i - (w - 1) / 2) + (w - 1) / 2 = i by omega] at this
      exact this
    have h2 : vAt l i ≤ m := by
      rw [hk0v]
      exact hall ((i - (w - 1) / 2) + k0) (by omega) (by omega)
    rw [le_antisymm h1 h2]

/-- A bar equals its centered rolling maximum exactly when its value is an
upper bound of the whole window. -/
lemma centeredMax_eq_iff (l : List ℚ) (w i : Nat) (hw : 0 < w)
    (hlo : (w - 1) / 2 ≤ i) (hhi : i + w / 2 < l.length) :
    cellAt (centeredMax l w) i = some (vAt l i) ↔
      ∀ j : Nat, i - (w - 1) / 2 ≤ j → j ≤ i + w / 2 → vAt l j ≤ vAt l i := by
  have hiL : i < l.length := by omega
  have hcell : cellAt (centeredMax l w) i = sliceMax l (i - (w - 1) / 2) w := by
    unfold centeredMax
    rw [cellAt_mapRange]
    rw [if_pos hiL, if_pos ⟨by omega, hlo, hhi⟩]
  have hdiv : (w - 1) / 2 + w / 2 = w - 1 := by omega
  have hr : (i - (w - 1) / 2) + w ≤ l.length := by omega
  obtain ⟨m, hm, ⟨k0, hk0, hk0v⟩, hbound⟩ := sliceMax_spec l (i - (w - 1) / 2) w hw hr
  rw [hcell, hm]
  constructor
  · intro hv j hj1 hj2
    have hmv : m = vAt l i := Option.some_inj.mp hv
    have hk : j - (i - (w - 1) / 2) < w := by omega
    have := hbound (j - (i - (w - 1) / 2)) hk
    rw [show (i - (w - 1) / 2) + (j - (i - (w - 1) / 2)) = j by omega] at this
    rw [← hmv]
    exact this
  · intro hall
    have h1 : vAt l i ≤ m := by
      have := hbound ((w - 1) / 2) (by omega)
      rw [show (i - (w - 1) / 2) + (w - 1) / 2 = i by omega] at this
      exact this
    have h2 : m ≤ vAt l i := by
      rw [hk0v]
      exact hall ((i - (w - 1) / 2) + k0) (by omega) (by omega)
    rw [le_antisymm h2 h1]

/-- C4 amended.  For an odd window `w`, a bar in the interior range is a
support extremum exactly when its low is strictly below both neighbours and
is a lower bound of the `w`-bar window centered on it (pandas rolls over `w`
bars, not `2*w+1`); symmetric for resistances with the high. -/
theorem C4_extrema (low high : List ℚ) (w i : Nat) (hw : w % 2 = 1) :
    (i ∈ supportIdxs low w ↔
      w ≤ i ∧ i + w < low.length ∧
        vAt low i < vAt low (i - 1) ∧ vAt low i < vAt low (i + 1) ∧
        ∀ j : Nat, i - (w - 1) / 2 ≤ j → j ≤ i + (w - 1) / 2 → vAt low i ≤ vAt low j) ∧
    (i ∈ resistIdxs high w ↔
      w ≤ i ∧ i + w < high.length ∧
        vAt high (i - 1) < vAt high i ∧ vAt high (i + 1) < vAt high i ∧
        ∀ j : Nat, i - (w - 1) / 2 ≤ j → j ≤ i + (w - 1) / 2 → vAt high j ≤ vAt high i) := by
  have hw0 : 0 < w := by omega
  have hdiv2 : w / 2 = (w - 1) / 2 := by omega
  constructor
  · unfold supportIdxs
    rw [List.mem_filter, List.mem_range]
    simp only [Bool.and_eq_true, decide_eq_true_eq]
    constructor
    · rintro ⟨hin, ⟨⟨⟨hle, hlt⟩, hmin⟩, hn1⟩, hn2⟩
      have hiff := centeredMin_eq_iff low w i hw0 (by omega) (by omega)
      rw [hdiv2] at hiff
      exact ⟨hle, hlt, hn1, hn2, hiff.mp hmin⟩
    · rintro ⟨hle, hlt, hn1, hn2, hall⟩
      have hiff := centeredMin_eq_iff low w i hw0 (by omega) (by omega)
      rw [hdiv2] at hiff
      exact ⟨by omega, ⟨⟨⟨hle, hlt⟩, hiff.mpr hall⟩, hn1⟩, hn2⟩
  · unfold resistIdxs
    rw [List.mem_filter, List.mem_range]
    simp only [Bool.and_eq_true, decide_eq_true_eq]
    constructor
    · rintro ⟨hin, ⟨⟨⟨hle, hlt⟩, hmax⟩, hn1⟩, hn2⟩
      have hiff := centeredMax_eq_iff high w i hw0 (by omega) (by omega)
      rw [hdiv2] at hiff
      exact ⟨hle, hlt, hn1, hn2, hiff.mp hmax⟩
    · rintro ⟨hle, hlt, hn1, hn2, hall⟩
      have hiff := centeredMax_eq_iff high w i hw0 (by omega) (by omega)
      rw [hdiv2] at hiff
      exact ⟨by omega, ⟨⟨⟨hle, hlt⟩, hiff.mpr hall⟩, hn1⟩, hn2⟩

/-- Lows with a deep global minimum at bar 0 and a local dip at bar 5. -/
def lowsC4 : List ℚ := [1, 5, 5, 5, 5, 2, 5, 5, 5, 5, 5]

/-- Lows with a single dip at bar 5, for the witness. -/
def lowsW4 : List ℚ := [5, 5, 5, 5, 5, 2, 5, 5, 5, 5, 5]

/-- Highs with a single peak at bar 5, for the witness. -/
def highsW4 : List ℚ := [5, 5, 5, 5, 5, 9, 5, 5, 5, 5, 5]

/-- C4 counterexample.  With window 5, bar 5 of `lowsC4` is reported as a
support (its low 2 is the minimum of the 5-bar centered window and below both
neighbours), yet it does not equal the centered minimum over `2*5+1` bars,
which is the 1 at bar 0 — refuting the claimed `2*w+1` window. -/
theorem C4_cex :
    5 ∈ supportIdxs lowsC4 5 ∧
      cellAt (centeredMin lowsC4 (2 * 5 + 1)) 5 ≠ some (vAt lowsC4 5) := by decide

/-- C4 witness: the amended characterisation applied at window 5, bar 5 of
the single-dip data. -/
theorem C4_extrema_witness :
    (5 ∈ supportIdxs lowsW4 5 ↔
      5 ≤ 5 ∧ 5 + 5 < lowsW4.length ∧
        vAt lowsW4 5 < vAt lowsW4 4 ∧ vAt lowsW4 5 < vAt lowsW4 6 ∧
        ∀ j : Nat, 5 - (5 - 1) / 2 ≤ j → j ≤ 5 + (5 - 1) / 2 → vAt lowsW4 5 ≤ vAt lowsW4 j) ∧
    (5 ∈ resistIdxs highsW4 5 ↔
      5 ≤ 5 ∧ 5 + 5 < highsW4.length ∧
        vAt highsW4 4 < vAt highsW4 5 ∧ vAt highsW4 6 < vAt highsW4 5 ∧
        ∀ j : Nat, 5 - (5 - 1) / 2 ≤ j → j ≤ 5 + (5 - 1) / 2 → vAt highsW4 j ≤ vAt highsW4 5) :=
  C4_extrema lowsW4 highsW4 5 5 (by decide)

/-- The maximal prefix of the remaining sorted extrema that keeps chaining
onto the running cluster: each element within 0.5% of the previous one. -/
def closeRun (p : LPoint) : List LPoint → List LPoint
  | [] => []
  | x :: xs => if closeTo p x then x :: closeRun x xs else []

/-- A successful greedy pass never raises, given positive prices. -/
lemma clusterGo_some (xs : List LPoint) (p : LPoint) (acc : List LPoint)
    (hpos : ∀ q ∈ p :: xs, 0 < q.2) : ∃ gs, clusterGo xs p acc = some gs := by
  induction xs generalizing p acc with
  | nil => exact ⟨_, rfl⟩
  | cons x xs ih =>
    have hp : p.2 ≠ 0 := ne_of_gt (hpos p (List.mem_cons_self _ _))
    have hpos2 : ∀ q ∈ x :: xs, 0 < q.2 := fun q hq =>
      hpos q (List.mem_cons_of_mem _ hq)
    unfold clusterGo
    rw [if_neg hp]
    by_cases hc : closeTo p x = true
    · rw [if_pos hc]
      exact ih x (p :: acc) hpos2
    · rw [if_neg hc]
      obtain ⟨gs, hgs⟩ := ih x [] hpos2
      rw [hgs]
      exact ⟨_, rfl⟩

/-- The first group built by the greedy pass is the running cluster followed
by the close-chained prefix of the rest. -/
lemma clusterGo_run (xs : List LPoint) (p : LPoint) (acc : List LPoint)
    (gs : List (List LPoint)) (h : clusterGo xs p acc = some gs) :
    ∃ gs2, gs = ((p :: acc).reverse ++ closeRun p xs) :: gs2 := by
  induction xs generalizing p acc gs with
  | nil =>
    unfold clusterGo at h
    refine ⟨[], ?_⟩
    rw [← Option.some_inj.mp h]
    simp only [closeRun]
    rw [List.append_nil]
  | cons x xs ih =>
    unfold clusterGo at h
    split at h
    · exact Option.noConfusion h
    · split at h
      · rename_i hc
        obtain ⟨gs2, hgs2⟩ := ih x (p :: acc) gs h
        refine ⟨gs2, ?_⟩
        rw [hgs2]
        simp only [closeRun]
        rw [if_pos hc]
        simp only [List.reverse_cons, List.append_assoc, List.cons_append,
          List.nil_append, List.singleton_append]
      · rename_i hc
        rcases hrec : clusterGo xs x [] with _ | gs3 <;> rw [hrec] at h
        · exact Option.noConfusion h
        · refine ⟨gs3, ?_⟩
          rw [← Option.some_inj.mp h]
          simp only [closeRun]
          rw [if_neg hc, List.append_nil]

/-- Groups built by the greedy pass are never empty. -/
lemma clusterGo_ne_nil (xs : List LPoint) (p : LPoint) (acc : List LPoint)
    (gs : List (List LPoint)) (h : clusterGo xs p acc = some gs) :
    ∀ g ∈ gs, g ≠ [] := by
  induction xs generalizing p acc gs with
  | nil =>
    unfold clusterGo at h
    rw [← Option.some_inj.mp h]
    intro g hg
    rw [List.mem_singleton] at hg
    rw [hg]
    simp
  | cons x xs ih =>
    unfold clusterGo at h
    split at h
    · exact Option.noConfusion h
    · split at h
      · exact ih x (p :: acc) gs h
      · rcases hrec : clusterGo xs x [] with _ | gs3 <;> rw [hrec] at h
        · exact Option.noConfusion h
        · rw [← Option.some_inj.mp h]
          intro g hg
          rcases List.mem_cons.mp hg with h1 | h2
          · rw [h1]; simp
          · exact ih x [] gs3 hrec g h2

/-- A sorted element within 0.5% (of the smaller price) of the chain head
lands inside the close-chained prefix. -/
lemma closeRun_mem (ys : List LPoint) (q b : LPoint)
    (hsort : List.Sorted priceLE (q :: ys)) (hpos : ∀ v ∈ q :: ys, 0 < v.2)
    (hb : b ∈ ys) (hgap : b.2 - q.2 < 5 / 1000 * q.2) : b ∈ closeRun q ys := by
  induction ys generalizing q with
  | nil => exact absurd hb (List.not_mem_nil b)
  | cons x ys ih =>
    have hq : 0 < q.2 := hpos q (List.mem_cons_self _ _)
    have hx : 0 < x.2 := hpos x (List.mem_cons_of_mem _ (List.mem_cons_self _ _))
    have hqx : q.2 ≤ x.2 :=
      (List.sorted_cons.mp hsort).1 x (List.mem_cons_self _ _)
    have hxb : x.2 ≤ b.2 := by
      rcases List.mem_cons.mp hb with h1 | h2
      · rw [h1]
      · exact ((List.sorted_cons.mp (List.sorted_cons.mp hsort).2).1) b h2
    have hclose : closeTo q x = true := by
      unfold closeTo
      rw [decide_eq_true_eq, abs_of_nonneg (by linarith), div_lt_iff hq]
      linarith
    simp only [closeRun]
    rw [if_pos hclose]
    rcases List.mem_cons.mp hb with h1 | h2
    · rw [h1]
      exact List.mem_cons_self _ _
    · have hsort2 : List.Sorted priceLE (x :: ys) := (List.sorted_cons.mp hsort).2
      have hpos2 : ∀ v ∈ x :: ys, 0 < v.2 := fun v hv =>
        hpos v (List.mem_cons_of_mem _ hv)
      have hgap2 : b.2 - x.2 < 5 / 1000 * x.2 := by nlinarith
      exact List.mem_cons_of_mem _ (ih x hsort2 hpos2 h2 hgap2)

/-- Any two sorted extrema within 0.5% of the smaller of them end up in the
same group of the greedy pass. -/
lemma clusterGo_same_group (xs : List LPoint) (p : LPoint) (acc : List LPoint)
    (gs : List (List LPoint)) (h : clusterGo xs p acc = some gs)
    (hsort : List.Sorted priceLE (p :: xs)) (hpos : ∀ v ∈ p :: xs, 0 < v.2) :
    ∀ a b : LPoint, a ∈ p :: xs → b ∈ p :: xs → a.2 ≤ b.2 →
      b.2 - a.2 < 5 / 1000 * a.2 → ∃ g ∈ gs, a ∈ g ∧ b ∈ g := by
  induction xs generalizing p acc gs with
  | nil =>
    intro a b ha hb _ _
    rw [List.mem_singleton] at ha hb
    unfold clusterGo at h
    refine ⟨(p :: acc).reverse, ?_, ?_, ?_⟩
    · rw [← Option.some_inj.mp h]
      exact List.mem_singleton.mpr rfl
    · rw [ha, List.mem_reverse]
      exact List.mem_cons_self _ _
    · rw [hb, List.mem_reverse]
      exact List.mem_cons_self _ _
  | cons x xs ih =>
    intro a b ha hb hab hgap
    have hp : 0 < p.2 := hpos p (List.mem_cons_self _ _)
    have hx : 0 < x.2 := hpos x (List.mem_cons_of_mem _ (List.mem_cons_self _ _))
    have hpx : p.2 ≤ x.2 := (List.sorted_cons.mp hsort).1 x (List.mem_cons_self _ _)
    have hple : ∀ v ∈ p :: x :: xs, p.2 ≤ v.2 := by
      intro v hv
      rcases List.mem_cons.mp hv with h1 | h2
      · rw [h1]
      · exact (List.sorted_cons.mp hsort).1 v h2
    have hsort2 : List.Sorted priceLE (x :: xs) := (List.sorted_cons.mp hsort).2
    have hpos2 : ∀ v ∈ x :: xs, 0 < v.2 := fun v hv => hpos v (List.mem_cons_of_mem _ hv)
    unfold clusterGo at h
    rw [if_neg (ne_of_gt hp)] at h
    by_cases hc : closeTo p x = true
    · rw [if_pos hc] at h
      obtain ⟨gs2, hgs2⟩ := clusterGo_run xs x (p :: acc) gs h
      have hpg : p ∈ (x :: p :: acc).reverse ++ closeRun x xs := by
        rw [List.mem_append, List.mem_reverse]
        exact Or.inl (List.mem_cons_of_mem _ (List.mem_cons_self _ _))
      have hxg : x ∈ (x :: p :: acc).reverse ++ closeRun x xs := by
        rw [List.mem_append, List.mem_reverse]
        exact Or.inl (List.mem_cons_self _ _)
      have hmemrun : ∀ v : LPoint, v ∈ x :: xs → v.2 - p.2 < 5 / 1000 * p.2 →
          v ∈ (x :: p :: acc).reverse ++ closeRun x xs := by
        intro v hv hvgap
        rcases List.mem_cons.mp hv with h1 | h2
        · rw [h1]; exact hxg
        · rw [List.mem_append]
          refine Or.inr (closeRun_mem xs x v hsort2 hpos2 h2 ?_)
          nlinarith
      rcases List.mem_cons.mp ha with hap | hatl
      · rcases List.mem_cons.mp hb with hbp | hbtl
        · refine ⟨_, by rw [hgs2]; exact List.mem_cons_self _ _, ?_, ?_⟩
          · rw [hap]; exact hpg
          · rw [hbp]; exact hpg
        · refine ⟨_, by rw [hgs2]; exact List.mem_cons_self _ _, ?_, ?_⟩
          · rw [hap]; exact hpg
          · subst hap
            exact hmemrun b hbtl hgap
      · rcases List.mem_cons.mp hb with hbp | hbtl
        · have hap2 : a.2 = p.2 := le_antisymm (hbp ▸ hab) (hple a ha)
          refine ⟨_, by rw [hgs2]; exact List.mem_cons_self _ _, ?_, ?_⟩
          · refine hmemrun a hatl ?_
            rw [hap2]
            nlinarith
          · rw [hbp]; exact hpg
        · obtain ⟨g, hg, hga, hgb⟩ := ih x (p :: acc) gs h hsort2 hpos2 a b hatl hbtl hab hgap
          exact ⟨g, hg, hga, hgb⟩
    · rw [if_neg hc] at h
      have hgapx : 5 / 1000 * p.2 ≤ x.2 - p.2 := by
        unfold closeTo at hc
        rw [decide_eq_true_eq, abs_of_nonneg (by linarith), div_lt_iff hp] at hc
        push_neg at hc
        linarith
      rcases hrec : clusterGo xs x [] with _ | gs3 <;> rw [hrec] at h
      · exact Option.noConfusion h
      have hgs : gs = (p :: acc).reverse :: gs3 := (Option.some_inj.mp h).symm
      rcases List.mem_cons.mp ha with hap | hatl
      · rcases List.mem_cons.mp hb with hbp | hbtl
        · refine ⟨(p :: acc).reverse, by rw [hgs]; exact List.mem_cons_self _ _, ?_, ?_⟩
          · rw [hap, List.mem_reverse]; exact List.mem_cons_self _ _
          · rw [hbp, List.mem_reverse]; exact List.mem_cons_self _ _
        · exfalso
          have hxb : x.2 ≤ b.2 := by
            rcases List.mem_cons.mp hbtl with h1 | h2
            · rw [h1]
            · exact (List.sorted_cons.mp hsort2).1 b h2
          subst hap
          nlinarith
      · rcases List.mem_cons.mp hb with hbp | hbtl
        · exfalso
          have hap2 : a.2 = p.2 := le_antisymm (hbp ▸ hab) (hple a ha)
          have hxa : x.2 ≤ a.2 := by
            rcases List.mem_cons.mp hatl with h1 | h2
            · rw [h1]
            · exact (List.sorted_cons.mp hsort2).1 a h2
          nlinarith
        · obtain ⟨g, hg, hga, hgb⟩ := ih x [] gs3 hrec hsort2 hpos2 a b hatl hbtl hab hgap
          exact ⟨g, by rw [hgs]; exact List.mem_cons_of_mem _ hg, hga, hgb⟩

/-- C6 amended.  With positive prices: any two collected extrema whose prices
are within 0.5% of the smaller always end up in the same cluster, and every
produced level is the arithmetic mean of the timestamps and prices of one
(nonempty) cluster; two extrema further than 0.5% apart may however still be
merged through a chain of intermediate extrema (only consecutive members are
within 0.5% of the previous one). -/
theorem C6_clustering (levels : List LPoint) (hpos : ∀ v ∈ levels, 0 < v.2) :
    (∀ a b : LPoint, a ∈ levels → b ∈ levels → a.2 ≤ b.2 →
      b.2 - a.2 < 5 / 1000 * a.2 →
      ∃ gs, clusterGroups (sortByPrice levels) = some gs ∧
        ∃ g ∈ gs, a ∈ g ∧ b ∈ g) ∧
    (∀ cl ∈ cluster_levels levels,
      ∃ gs, clusterGroups (sortByPrice levels) = some gs ∧
        ∃ g ∈ gs, g ≠ [] ∧ cl = meanPoint g) := by
  have hperm : ∀ v : LPoint, v ∈ sortByPrice levels ↔ v ∈ levels := by
    intro v
    exact (List.perm_insertionSort priceLE levels).mem_iff
  have hpos2 : ∀ v ∈ sortByPrice levels, 0 < v.2 := fun v hv => hpos v ((hperm v).mp hv)
  have hsort : List.Sorted priceLE (sortByPrice levels) :=
    List.sorted_insertionSort priceLE levels
  constructor
  · intro a b ha hb hab hgap
    rcases hsl : sortByPrice levels with _ | ⟨x, xs⟩
    · exfalso
      have := (hperm a).mpr ha
      rw [hsl] at this
      exact List.not_mem_nil a this
    · have hpos3 : ∀ v ∈ x :: xs, 0 < v.2 := by rw [← hsl]; exact hpos2
      obtain ⟨gs, hgs⟩ := clusterGo_some xs x [] hpos3
      refine ⟨gs, ?_, ?_⟩
      · unfold clusterGroups
        exact hgs
      · have hsort3 : List.Sorted priceLE (x :: xs) := by rw [← hsl]; exact hsort
        have ha2 : a ∈ x :: xs := by rw [← hsl]; exact (hperm a).mpr ha
        have hb2 : b ∈ x :: xs := by rw [← hsl]; exact (hperm b).mpr hb
        exact clusterGo_same_group xs x [] gs hgs hsort3 hpos3 a b ha2 hb2 hab hgap
  · intro cl hcl
    unfold cluster_levels at hcl
    rcases hgr : clusterGroups (sortByPrice levels) with _ | gs <;> rw [hgr] at hcl
    · exact absurd hcl (List.not_mem_nil cl)
    · refine ⟨gs, rfl, ?_⟩
      obtain ⟨g, hg, hmean⟩ := List.mem_map.mp hcl
      refine ⟨g, hg, ?_, hmean.symm⟩
      rcases hsl : sortByPrice levels with _ | ⟨x, xs⟩
      · rw [hsl] at hgr
        unfold clusterGroups at hgr
        rw [← Option.some_inj.mp hgr] at hg
        exact absurd hg (List.not_mem_nil g)
      · rw [hsl] at hgr
        unfold clusterGroups at hgr
        exact clusterGo_ne_nil xs x [] gs hgr g hg

/-- C6 witness: the same-cluster part applied to two extrema 0.4% apart, and
the mean part applied to the resulting single cluster. -/
theorem C6_clustering_witness :
    (∃ gs, clusterGroups (sortByPrice [((0 : ℚ), (100 : ℚ)), (1, 100.4)]) = some gs ∧
      ∃ g ∈ gs, ((0 : ℚ), (100 : ℚ)) ∈ g ∧ ((1 : ℚ), (100.4 : ℚ)) ∈ g) ∧
    (∃ gs, clusterGroups (sortByPrice [((0 : ℚ), (100 : ℚ)), (1, 100.4)]) = some gs ∧
      ∃ g ∈ gs, g ≠ [] ∧ ((1 : ℚ)/2, (100.2 : ℚ)) = meanPoint g) :=
  ⟨(C6_clustering [((0 : ℚ), (100 : ℚ)), (1, 100.4)] (by decide)).1
      (0, 100) (1, 100.4) (by decide) (by decide) (by decide) (by decide),
    (C6_clustering [((0 : ℚ), (100 : ℚ)), (1, 100.4)] (by decide)).2
      ((1 : ℚ)/2, (100.2 : ℚ)) (by decide)⟩

/-- C6 counterexample.  The extrema at prices 100, 100.45 and 100.9 chain
into a single cluster although 100 and 100.9 are 0.9% apart — more than the
0.5% the claim allows for members of one cluster. -/
theorem C6_cex :
    clusterGroups (sortByPrice [((0 : ℚ), (100 : ℚ)), (1, 100.45), (2, 100.9)]) =
        some [[(0, 100), (1, 100.45), (2, 100.9)]] ∧
      cluster_levels [((0 : ℚ), (100 : ℚ)), (1, 100.45), (2, 100.9)] = [(1, 100.45)] ∧
      (5 : ℚ) / 1000 * 100 < 100.9 - 100 := by decide

end Crypto
